import Mathlib

/-!
Verification development for the tidploy address/state resolution engine.

The Rust source is shallowly embedded: absolute filesystem paths are plain
strings, `relative_path::RelativePathBuf` values are lists of path segments,
and every collaborator (filesystem, git subprocess, keyring, process
environment) is an explicit environment record, so each embedded function is
a pure, executable Lean function.  Loops that are unbounded in the source
(`converge_state`, `converge_address`) take an explicit fuel argument; a
`none` result means the fuel ran out, i.e. the source loop was still running
after that many iterations.  `unwrap` on `None` (a Rust panic) is modelled by
an explicit `panic` outcome.
-/

set_option maxRecDepth 10000

namespace Tidploy

/-- Absolute (UTF-8) filesystem paths, as in `camino::Utf8PathBuf`. -/
abbrev Path := String

/-- `Utf8Path::join` for a relative segment: `p.join(s) = p/s`. -/
def pathJoin (p : Path) (s : String) : Path := p ++ "/" ++ s

/-! String primitives.  The Rust code uses `str::split`, `trim`,
`starts_with` and friends; they are modelled here by structural recursion
over the character list so that every embedded function evaluates inside
the kernel. -/

/-- Split a character list at every occurrence of `c` (Rust
`str::split(c)`: `n` separators yield `n+1` pieces, empties kept). -/
def splitCharAux (c : Char) : List Char → List (List Char)
  | [] => [[]]
  | x :: xs =>
    if x = c then [] :: splitCharAux c xs
    else
      match splitCharAux c xs with
      | [] => [[x]]
      | y :: ys => (x :: y) :: ys

/-- Rust `str::split(c)` on strings. -/
def strSplitChar (c : Char) (s : String) : List String :=
  (splitCharAux c s.toList).map String.mk

/-- Split a string at every character satisfying `p`. -/
def strSplitPred (p : Char → Bool) (s : String) : List String :=
  (s.toList.foldr
    (fun x acc =>
      if p x then [] :: acc
      else
        match acc with
        | [] => [[x]]
        | y :: ys => (x :: y) :: ys)
    [[]]).map String.mk

/-- Substring occurrence on character lists (Rust `str::contains`). -/
def containsSubList (pat : List Char) : List Char → Bool
  | [] => pat.isPrefixOf []
  | x :: xs => pat.isPrefixOf (x :: xs) || containsSubList pat xs

/-- Rust `str::contains` on strings. -/
def strContains (s pat : String) : Bool := containsSubList pat.toList s.toList

/-- Rust `str::ends_with` on strings. -/
def strEndsWith (s suffix : String) : Bool := suffix.toList.isSuffixOf s.toList

/-- Rust `str::starts_with` on strings. -/
def strStartsWith (s pre : String) : Bool := pre.toList.isPrefixOf s.toList

/-- Rust `str::trim`: strip leading and trailing whitespace. -/
def strTrim (s : String) : String :=
  String.mk
    ((((s.toList.dropWhile (fun c => c.isWhitespace)).reverse.dropWhile
      (fun c => c.isWhitespace)).reverse))

/-- Drop the final character (Rust `strip_suffix` of a one-character
suffix). -/
def strDropLast (s : String) : String := String.mk s.toList.dropLast

/-- A `relative_path::RelativePathBuf`, kept as its list of path segments
(`components()`). -/
abbrev RelPath := List String

/-- `RelativePathBuf::from(s)`: split a string on `/`, dropping empty
segments (the crate's component iterator skips them). -/
def RelPath.fromString (s : String) : RelPath :=
  (strSplitChar '/' s).filter (fun c => c ≠ "")

/-- `RelativePath::as_str`, reconstructed from the components. -/
def RelPath.toStr (r : RelPath) : String := String.intercalate "/" r

/-- `WrapToPath::to_utf8_path`: append each component onto the base path. -/
def RelPath.toUtf8Path (r : RelPath) (base : Path) : Path :=
  r.foldl pathJoin base

/-- One step of `RelativePath::normalize`: `.` and empty components vanish,
`..` pops a previous normal component and is otherwise kept. -/
def normStep (acc : List String) (c : String) : List String :=
  if c = "." ∨ c = "" then acc
  else if c = ".." then
    match acc.getLast? with
    | none => [".."]
    | some l => if l = ".." then acc ++ [".."] else acc.dropLast
  else acc ++ [c]

/-- `RelativePath::normalize`, on component lists. -/
def RelPath.normalize (r : RelPath) : RelPath := r.foldl normStep []

namespace Cfg

/-! Embedding of `src/src/next/config.rs`. -/

/-- `ConfigVar { key, env_name }`. -/
structure ConfigVar where
  key : String
  env_name : String
  deriving DecidableEq, Repr

/-- `ConfigScope { name, sub, service, require_hash }`. -/
structure ConfigScope where
  name : Option String
  sub : Option String
  service : Option String
  require_hash : Option Bool
  deriving DecidableEq, Repr

/-- `ArgumentConfig { scope, executable, execution_path, envs }`. -/
structure ArgumentConfig where
  scope : Option ConfigScope
  executable : Option String
  execution_path : Option String
  envs : Option (List ConfigVar)
  deriving DecidableEq, Repr

/-- `ConfigAddress` (untagged union in the source). -/
inductive ConfigAddress where
  | Local (path : String) (state_path : Option String)
  | Git (url : String) (is_local : Option Bool) (git_ref : String)
      (target_path : Option String) (state_path : Option String)
  deriving DecidableEq, Repr

/-- `StateConfig { address }`. -/
structure StateConfig where
  address : Option ConfigAddress
  deriving DecidableEq, Repr

/-- `Config { argument, state }`. -/
structure Config where
  argument : Option ArgumentConfig
  state : Option StateConfig
  deriving DecidableEq, Repr

/-- `Config::default()`. -/
def Config.default : Config := { argument := none, state := none }

/-- `ConfigErrorKind`: IO, TOML-decode or JSON-decode failure. -/
inductive ConfigErrorKind where
  | io (msg : String)
  | tomlDecode (msg : String)
  | jsonDecode (msg : String)
  deriving DecidableEq, Repr

/-- `ConfigError { msg, source }`. -/
structure ConfigError where
  msg : String
  source : ConfigErrorKind
  deriving DecidableEq, Repr

/-- What the filesystem holds at one path: nothing, an unreadable file, or a
file with contents. -/
inductive FileOutcome where
  | absent
  | readErr (msg : String)
  | content (s : String)
  deriving DecidableEq, Repr

/-- The collaborators of the config loader: the filesystem and the two
out-of-scope parsers (`serde_json` / `toml`). -/
structure FsEnv where
  file : Path → FileOutcome
  parseJson : String → Except String Config
  parseToml : String → Except String Config

/-- `Path::exists` in this model. -/
def FsEnv.pathExists (env : FsEnv) (p : Path) : Bool :=
  match env.file p with
  | .absent => false
  | _ => true

/-- `load_dploy_config`: prefer `tidploy.json` if it exists, else read
`tidploy.toml`; a missing file yields `Config::default()`; read and parse
failures yield a `ConfigError`. -/
def load_dploy_config (env : FsEnv) (config_dir_path : Path) :
    Except ConfigError Config :=
  let toml_path := pathJoin config_dir_path "tidploy.toml"
  let json_path := pathJoin config_dir_path "tidploy.json"
  let choose_json := env.pathExists json_path
  let file_path := if choose_json then json_path else toml_path
  match env.file file_path with
  | .absent => .ok Config.default
  | .readErr m =>
      .error { msg := "Failed to read config file at " ++ file_path,
               source := .io m }
  | .content config_str =>
      if choose_json then
        match env.parseJson config_str with
        | .ok c => .ok c
        | .error m =>
            .error { msg := "Failed to deserialize file " ++ file_path ++ " to JSON",
                     source := .jsonDecode m }
      else
        match env.parseToml config_str with
        | .ok c => .ok c
        | .error m =>
            .error { msg := "Failed to deserialize file " ++ file_path ++ " to JSON",
                     source := .tomlDecode m }

/-- `overwrite_option`: the replacing value wins when present. -/
def overwrite_option {α : Type} (original replacing : Option α) : Option α :=
  match replacing with
  | some replacing => some replacing
  | none => original

/-- `merge_option`: merge when both sides are present. -/
def merge_option {α : Type} (original replacing : Option α)
    (merge_fn : α → α → α) : Option α :=
  match original with
  | some original =>
      match replacing with
      | some replacing => some (merge_fn original replacing)
      | none => some original
  | none => replacing

/-- `overwrite_scope`: field-wise overwrite of a `ConfigScope`. -/
def overwrite_scope (original replacing : ConfigScope) : ConfigScope :=
  { name := overwrite_option original.name replacing.name,
    sub := overwrite_option original.sub replacing.sub,
    service := overwrite_option original.service replacing.service,
    require_hash := overwrite_option original.require_hash replacing.require_hash }

/-- Insert into the association list that models the `HashMap` built by
`merge_vars` (replace an existing key, else append). -/
def insertVar (m : List ConfigVar) (k v : String) : List ConfigVar :=
  if m.any (fun c => c.key = k) then
    m.map (fun c => if c.key = k then { key := k, env_name := v } else c)
  else m ++ [{ key := k, env_name := v }]

/-- `merge_vars`: key-wise union where `overwrite_vars` wins.  The Rust
version returns the entries of a `HashMap` in unspecified order; this model
fixes first-insertion order, and every theorem about env lists only speaks
about key lookup. -/
def merge_vars (root_vars overwrite_vars : List ConfigVar) : List ConfigVar :=
  overwrite_vars.foldl (fun m c => insertVar m c.key c.env_name)
    (root_vars.foldl (fun m c => insertVar m c.key c.env_name) [])

/-- The value a `ConfigVar` list associates to a key when read like the
`HashMap` of `merge_vars`: the last occurrence of the key wins. -/
def lastLookup : List ConfigVar → String → Option String
  | [], _ => none
  | c :: l, k => (lastLookup l k).or (if c.key = k then some c.env_name else none)

/-- `overwrite_arguments`: field-wise merge of two `ArgumentConfig`s. -/
def overwrite_arguments (root_config overwrite_config : ArgumentConfig) :
    ArgumentConfig :=
  { scope := merge_option root_config.scope overwrite_config.scope overwrite_scope,
    executable := overwrite_option root_config.executable overwrite_config.executable,
    execution_path :=
      overwrite_option root_config.execution_path overwrite_config.execution_path,
    envs := merge_option root_config.envs overwrite_config.envs merge_vars }

/-- `overwrite_arg_config`. -/
def overwrite_arg_config (root_config overwrite_config : Option ArgumentConfig) :
    Option ArgumentConfig :=
  merge_option root_config overwrite_config overwrite_arguments

/-- `get_component_paths`: the scan that pushes each component of the
normalized final path and records the absolute path so far. -/
def get_component_paths (start_path : Path) (final_path : RelPath) :
    List Path :=
  (final_path.normalize.foldl
    (fun (acc : RelPath × List Path) component =>
      let st := acc.1 ++ [component]
      (st, acc.2 ++ [RelPath.toUtf8Path st start_path]))
    ([], [])).2

/-- `traverse_arg_configs`: load the config at `start_path`, then fold the
per-directory configs along the component paths, deeper overriding. -/
def traverse_arg_configs (env : FsEnv) (start_path : Path)
    (final_path : RelPath) : Except ConfigError (Option ArgumentConfig) := do
  let root_config ← load_dploy_config env start_path
  (get_component_paths start_path final_path).foldlM
    (fun state path => do
      let c ← load_dploy_config env path
      pure (overwrite_arg_config state c.argument))
    root_config.argument

end Cfg

namespace GitC

/-! Embedding of `src/src/next/git.rs`. -/

/-- `GitError`: a failed git command (captured output) or a process error. -/
inductive GitErrorS where
  | failed (msg : String)
  | io (msg : String)
  deriving DecidableEq, Repr

/-- `AddressError::RepoParse`. -/
inductive AddressErrorS where
  | repoParse (url : String)
  deriving DecidableEq, Repr

/-- `StateError { msg, source }`, with the source kinds this module uses. -/
inductive StateErrKind where
  | git (e : GitErrorS)
  | address (e : AddressErrorS)
  | io (msg : String)
  deriving DecidableEq, Repr

/-- `StateError` with its human message and causal chain. -/
structure StateErrorS where
  msg : String
  source : StateErrKind
  deriving DecidableEq, Repr

/-- `ShaRef { sha, tag }`: one parsed `ls-remote` line. -/
structure ShaRef where
  sha : String
  tag : String
  deriving DecidableEq, Repr

instance : Inhabited ShaRef := ⟨⟨"", ""⟩⟩

/-- Rust `str::split_whitespace`: split on whitespace, dropping empty
pieces. -/
def splitWhitespace (s : String) : List String :=
  (strSplitPred (fun c => c.isWhitespace) s).filter (fun p => p ≠ "")

/-- Parse one `ls-remote` output line into a `ShaRef`; any line that does not
have exactly two whitespace-separated fields is an invalid result. -/
def parseShaRef (out : String) (line : String) : Except GitErrorS ShaRef :=
  match splitWhitespace line with
  | [sha, tag] => .ok { sha := sha, tag := tag }
  | _ => .error (.failed ("ls-remote returned invalid result: " ++ out))

/-- The case analysis `ls_remote` performs on the parsed, filtered lines:
empty ⇒ the pattern itself; two or more lines all with one sha ⇒ that sha;
exactly two lines ⇒ the one whose ref ends in `^\x7b\x7d`, else fail;
exactly one line ⇒ its sha; otherwise fail (pattern not specific enough). -/
def ls_remote_decide (sha_refs : List ShaRef) (pattern : String) :
    Except GitErrorS String :=
  let first := (sha_refs.headD default).sha
  if sha_refs.isEmpty then .ok pattern
  else if 2 ≤ sha_refs.length ∧ sha_refs.all (fun s => s.sha = first) then
    .ok first
  else if sha_refs.length = 2 then
    let s0 := sha_refs.getD 0 default
    let s1 := sha_refs.getD 1 default
    if strEndsWith s0.tag "^\x7b\x7d" then .ok s0.sha
    else if strEndsWith s1.tag "^\x7b\x7d" then .ok s1.sha
    else .error (.failed "Could not choose tag from two options for ls-remote")
  else if sha_refs.length = 1 then .ok first
  else
    .error (.failed
      ("Pattern is not specific enough, cannot determine commit for " ++ pattern))

/-- The pure part of `ls_remote`: split the trimmed subprocess output into
lines, parse each, drop `refs/remotes` lines, and decide. -/
def ls_remote_process (out : String) (pattern : String) :
    Except GitErrorS String := do
  let lines := strSplitChar '\n' (strTrim out)
  let sha_refs ← lines.mapM (parseShaRef out)
  let sha_refs := sha_refs.filter (fun sr => ¬ strContains sr.tag "refs/remotes")
  ls_remote_decide sha_refs pattern

/-- `parse_url_repo_name` (imported by `git.rs` as `parse_url_name`): strip a
trailing slash, take the last `/`-separated part, and cut any extension. -/
def parse_url_repo_name (url : String) : Except AddressErrorS String :=
  let url := if strEndsWith url "/" then strDropLast url else url
  let split_parts := strSplitChar '/' url
  match split_parts.getLast? with
  | none => .error (.repoParse url)
  | some last_part =>
    let split_parts_dot := strSplitChar '.' last_part
    if split_parts_dot.length ≤ 1 then .ok last_part
    else
      match split_parts_dot.head? with
      | none => .error (.repoParse url)
      | some first => .ok first

/-- `str_last_n`: the last `n` characters.  The Rust version `unwrap`s the
`nth_back` option, so a string shorter than `n` characters is a panic,
modelled as `none`. -/
def str_last_n (input : String) (n : Nat) : Option String :=
  if n = 0 then none
  else if input.length < n then none
  else some (String.mk (input.toList.drop (input.length - n)))

/-- The git subprocess operations `get_dir_from_git` can run, in order. -/
inductive GitOp where
  | rootDir (path : Path)
  | clone (dir : Path) (target : String) (url : String)
  | lsRemote (dir : Path) (pattern : String)
  | fetch (dir : Path)
  | checkout (dir : Path) (sha : String)
  | sparse (dir : Path) (paths : List String)
  deriving DecidableEq, Repr

/-- The collaborators of `get_dir_from_git`: filesystem existence checks, the
result of each git subprocess, the SHA-256 based `hash_last_n`, and the
fallible filesystem mutations (metadata writes, recursive copy, `.git`
removal). -/
structure GitEnv where
  pathExists : Path → Bool
  gitRootDir : Path → Except GitErrorS String
  cloneRes : Path → String → String → Except GitErrorS Unit
  lsRemoteRaw : Path → String → Except GitErrorS String
  fetchRes : Path → Except GitErrorS Unit
  checkoutRes : Path → String → Except GitErrorS Unit
  sparseRes : Path → List String → Except GitErrorS Unit
  hashLastN : String → Nat → String
  writeMeta : Path → String → Except String Unit
  copyDir : Path → Path → Except String Unit
  removeDir : Path → Except String Unit

/-- `StateStep` as used by this revision's `State`. -/
inductive StateStep where
  | config
  deriving DecidableEq, Repr

/-- The `State` returned by this revision of `get_dir_from_git`. -/
structure StateS where
  name : String
  resolve_root : Path
  step : StateStep
  state_path : RelPath
  deriving DecidableEq, Repr

/-- Outcome of a fallible computation that can also panic (`unwrap` on
`None`). -/
inductive POut (α : Type) where
  | ok (a : α)
  | err (e : StateErrorS)
  | panic
  deriving DecidableEq, Repr

/-- `GitAddress` of this revision: url, ref, target path inside the
snapshot, and whether the url is a local directory. -/
structure GitAddress where
  url : String
  git_ref : String
  path : RelPath
  is_local : Bool
  deriving DecidableEq, Repr

/-- Helper: wrap a git error like `to_state_err`. -/
def wrapGit (msg : String) (e : GitErrorS) : StateErrorS :=
  { msg := msg, source := .git e }

/-- Helper: wrap an IO-ish error message like `to_state_err`. -/
def wrapIoErr (msg : String) (m : String) : StateErrorS :=
  { msg := msg, source := .io m }

/-- The stage of `get_dir_from_git` after the commit directory is known to
exist: materialize the snapshot if it is missing (`fetch`, copy, `checkout`,
`sparse-checkout`, drop `.git`, write metadata), then build the state. -/
def materializeSnapshot (env : GitEnv) (address : GitAddress)
    (state_path : RelPath) (target_dir commit_path : Path)
    (name commit commit_short encoded_paths : String) (paths : List String) :
    POut StateS × List GitOp :=
  let done : POut StateS :=
    .ok { name := name,
          resolve_root := RelPath.toUtf8Path address.path commit_path,
          step := .config,
          state_path := state_path }
  if env.pathExists commit_path then (done, [])
  else
    match env.fetchRes target_dir with
    | .error e =>
        (.err (wrapGit "Error updating repository to ensure commit exists." e),
         [.fetch target_dir])
    | .ok _ =>
      match env.copyDir target_dir commit_path with
      | .error m =>
          (.err (wrapIoErr "Error copying main repository before checkout." m),
           [.fetch target_dir])
      | .ok _ =>
        match env.checkoutRes commit_path commit with
        | .error e =>
            (.err (wrapGit "Error checking out new commit." e),
             [.fetch target_dir, .checkout commit_path commit])
        | .ok _ =>
          match env.sparseRes commit_path paths with
          | .error e =>
              (.err (wrapGit "Error setting new paths for sparse checkout." e),
               [.fetch target_dir, .checkout commit_path commit,
                .sparse commit_path paths])
          | .ok _ =>
            let ops := [GitOp.fetch target_dir, .checkout commit_path commit,
                        .sparse commit_path paths]
            match env.removeDir (pathJoin commit_path ".git") with
            | .error m => (.err (wrapIoErr "Error removing .git directory." m), ops)
            | .ok _ =>
              let meta_filename :=
                "tidploy_deploy_meta_" ++ commit_short ++ "_" ++ encoded_paths
              match env.writeMeta (pathJoin commit_path meta_filename)
                  ("commit:" ++ commit ++ "\npaths:" ++ String.intercalate "_" paths) with
              | .error m => (.err (wrapIoErr "Failed to create metadata file!" m), ops)
              | .ok _ => (done, ops)

/-- The stage of `get_dir_from_git` after the repository cache directory is
ensured: resolve the ref over `ls-remote`, cut the short commit id (a panic
when the commit string is shorter than 10 characters), build the
content-addressed snapshot path and materialize it. -/
def resolveAndMaterialize (env : GitEnv) (address : GitAddress)
    (state_path : RelPath) (store_dir : Path) (target_dir : Path)
    (dir_name name : String) : POut StateS × List GitOp :=
  let lsOp := GitOp.lsRemote target_dir address.git_ref
  match env.lsRemoteRaw target_dir address.git_ref with
  | .error e => (.err (wrapGit "Error getting provided tag." e), [lsOp])
  | .ok out =>
    match ls_remote_process out address.git_ref with
    | .error e => (.err (wrapGit "Error getting provided tag." e), [lsOp])
    | .ok commit =>
      match str_last_n commit 10 with
      | none => (.panic, [lsOp])
      | some commit_short =>
        let commit_dir := pathJoin store_dir "c"
        let state_path_git := address.path ++ state_path
        let paths := [RelPath.toStr state_path_git]
        let paths_name := String.intercalate "_" paths
        let encoded_paths := env.hashLastN paths_name 8
        let commit_path :=
          pathJoin (pathJoin (pathJoin commit_dir dir_name) commit_short)
            encoded_paths
        let (res, ops) :=
          materializeSnapshot env address state_path target_dir commit_path
            name commit commit_short encoded_paths paths
        (res, lsOp :: ops)

/-- `get_dir_from_git`: derive the cache key from the url, clone the sparse
repository when its cache directory is missing, resolve the ref, and return
the (possibly cached) snapshot state, recording every git subprocess
operation that was run. -/
def get_dir_from_git (env : GitEnv) (address : GitAddress)
    (state_path : RelPath) (store_dir : Path) : POut StateS × List GitOp :=
  let (urlRes, ops0) :=
    if address.is_local then
      (env.gitRootDir address.url, [GitOp.rootDir address.url])
    else (.ok address.url, [])
  match urlRes with
  | .error e =>
      (.err (wrapGit "Failed to get Git directory from local URL." e), ops0)
  | .ok url =>
    let encoded_url := env.hashLastN url 8
    match parse_url_repo_name url with
    | .error e =>
        (.err { msg := "Error passing Git url for determining name.",
                source := .address e }, ops0)
    | .ok name =>
      let dir_name := name ++ "_" ++ encoded_url
      let target_dir := pathJoin store_dir dir_name
      if env.pathExists target_dir then
        let (res, ops) :=
          resolveAndMaterialize env address state_path store_dir target_dir
            dir_name name
        (res, ops0 ++ ops)
      else
        match env.cloneRes store_dir dir_name url with
        | .error e =>
            (.err (wrapGit "Error cloning repository in address." e),
             ops0 ++ [.clone store_dir dir_name url])
        | .ok _ =>
          let meta_filename := "tidploy_repo_meta_" ++ dir_name
          match env.writeMeta (pathJoin target_dir meta_filename)
              ("url:" ++ url ++ "\nname:" ++ name) with
          | .error m =>
              (.err (wrapIoErr "Failed to create metadata file!" m),
               ops0 ++ [.clone store_dir dir_name url])
          | .ok _ =>
            let (res, ops) :=
              resolveAndMaterialize env address state_path store_dir target_dir
                dir_name name
            (res, ops0 ++ [.clone store_dir dir_name url] ++ ops)

end GitC

namespace StateC

/-! Embedding of `src/src/next/state.rs`. -/

/-- The error kinds `state.rs` wraps into a `StateError`. -/
inductive StateErrKindS where
  | invalidPath
  | invalidRoot (p : String)
  | git (msg : String)
  | config (e : Cfg.ConfigError)
  deriving DecidableEq, Repr

/-- `StateError { msg, source }`. -/
structure StateErrorSt where
  msg : String
  source : StateErrKindS
  deriving DecidableEq, Repr

/-- `InferContext`: interpret inputs relative to the current directory or to
the enclosing Git repository. -/
inductive InferContext where
  | cwd
  | git
  deriving DecidableEq, Repr

/-- `LocalAddressIn`. -/
structure LocalAddressIn where
  resolve_root : Option String
  state_path : Option String
  state_root : Option String
  deriving DecidableEq, Repr

/-- `GitAddressIn`. -/
structure GitAddressIn where
  url : Option String
  git_ref : Option String
  target_resolve_root : Option String
  state_path : Option String
  state_root : Option String
  deriving DecidableEq, Repr

/-- `AddressIn`. -/
inductive AddressIn where
  | Local (l : LocalAddressIn)
  | Git (g : GitAddressIn)
  deriving DecidableEq, Repr

/-- `GitAddress` of this revision: url, ref and target path. -/
structure GitAddressSt where
  url : String
  git_ref : String
  path : RelPath
  deriving DecidableEq, Repr

/-- `AddressRoot`: a local path (absolute or relative to the previous
resolve root) or a Git address. -/
inductive AddressRoot where
  | Local (p : Path)
  | Git (g : GitAddressSt)
  deriving DecidableEq, Repr

/-- `Address { root, state_root, state_path }`. -/
structure Address where
  root : AddressRoot
  state_root : RelPath
  state_path : RelPath
  deriving DecidableEq, Repr

/-- The `ConfigAddress` shape this revision of `state.rs` consumes. -/
inductive ConfigAddressSt where
  | Git (url : String) (git_ref : String) (target_path : Option String)
      (state_path : Option String) (state_root : Option String)
  | Local (path : String) (state_path : Option String)
      (state_root : Option String)
  deriving DecidableEq, Repr

/-- The `StateConfig` shape this revision of `state.rs` consumes. -/
structure StateConfigSt where
  address : Option ConfigAddressSt
  state_path : Option String
  state_root : Option String
  deriving DecidableEq, Repr

/-- The traversed `Config` as seen by `converge_state` (the matching
`traverse_configs` is present only in commented-out form in
`src/src/next/config.rs`; `converge_state` reads only its `state` field). -/
structure ConfigSt where
  argument : Option Cfg.ArgumentConfig
  state : Option StateConfigSt
  deriving DecidableEq, Repr

/-- `State { state_root, state_path, resolve_root, address }`. -/
structure State where
  state_root : RelPath
  state_path : RelPath
  resolve_root : Path
  address : Option Address
  deriving DecidableEq, Repr

/-- `parse_cli_vars`: interpret consecutive pairs as (secret key, target env
name); a final unpaired element is omitted (`chunks_exact(2)`). -/
def parse_cli_vars : List String → List Cfg.ConfigVar
  | k :: v :: rest => { key := k, env_name := v } :: parse_cli_vars rest
  | _ => []

/-- `Address::from_config_addr`: a relative local path is resolved against
the previous `resolve_root`, an absolute one is kept. -/
def Address.from_config_addr (value : ConfigAddressSt) (resolve_root : Path) :
    Address :=
  match value with
  | .Git url git_ref target_path state_path state_root =>
      { root := .Git { url := url, git_ref := git_ref,
                       path := RelPath.fromString (target_path.getD "") },
        state_path := RelPath.fromString (state_path.getD ""),
        state_root := RelPath.fromString (state_root.getD "") }
  | .Local path state_path state_root =>
      let root :=
        if strStartsWith path "/" then path
        else RelPath.toUtf8Path (RelPath.fromString path) resolve_root
      { root := .Local root,
        state_path := RelPath.fromString (state_path.getD ""),
        state_root := RelPath.fromString (state_root.getD "") }

/-- `State::merge_config`: a config address replaces the current one, and
present `state_path`/`state_root` values override; `resolve_root` is kept. -/
def State.merge_config (s : State) (other : StateConfigSt) : State :=
  let address :=
    match other.address with
    | some a => some (Address.from_config_addr a s.resolve_root)
    | none => s.address
  { state_path :=
      match other.state_path with
      | some p => RelPath.fromString p
      | none => s.state_path,
    state_root :=
      match other.state_root with
      | some p => RelPath.fromString p
      | none => s.state_root,
    resolve_root := s.resolve_root,
    address := address }

/-- `State::same`: equal `resolve_root` and normalized
`state_path`/`state_root` (the `address` field is not compared). -/
def State.same (s other : State) : Bool :=
  s.resolve_root = other.resolve_root
    ∧ s.state_path.normalize = other.state_path.normalize
    ∧ s.state_root.normalize = other.state_root.normalize

/-- The collaborators of state convergence: config traversal over the
filesystem, the current directory, `git config --get remote.origin.url`, and
`get_dir_from_git` (whose in-tree revision returns a different `State`
shape, so it enters this embedding as an environment function). -/
structure StEnv where
  traverseConfigs : Path → RelPath → Except Cfg.ConfigError ConfigSt
  currentDir : Except StateErrorSt Path
  gitRootOriginUrl : Path → Except String String
  getDirFromGit : GitAddressSt → RelPath → RelPath → Path → Except StateErrorSt State

/-- `converge_state`: repeatedly traverse configs and merge the `state`
section until it is absent or a merge no longer changes the state.  The
source loop is unbounded; `none` means it was still running after `fuel`
iterations. -/
def converge_state (env : StEnv) : Nat → State → Option (Except StateErrorSt State)
  | 0, _ => none
  | n + 1, state =>
    let state_root_path := RelPath.toUtf8Path state.state_root state.resolve_root
    match env.traverseConfigs state_root_path state.state_path with
    | .error e =>
        some (.error { msg := "Failed to read configs for determining new state.",
                       source := .config e })
    | .ok config =>
      match config.state with
      | none => some (.ok state)
      | some config_state =>
        let new_state := state.merge_config config_state
        if new_state.same state then some (.ok new_state)
        else converge_state env n new_state

/-- `resolve_address`: a Git root goes through `get_dir_from_git`; a local
root becomes the new `resolve_root` with no pending address. -/
def resolve_address (env : StEnv) (address : Address) (store_dir : Path) :
    Except StateErrorSt State :=
  match address.root with
  | .Git addr => env.getDirFromGit addr address.state_path address.state_root store_dir
  | .Local path =>
      .ok { resolve_root := path, state_path := address.state_path,
            state_root := address.state_root, address := none }

/-- The `while let Some(address) = state.address` loop of `converge_address`.
The source loop has no hop bound; `none` means it was still running after
`fuel` address hops. -/
def converge_address_loop (env : StEnv) (store_dir : Path) (fuelI : Nat) :
    Nat → State → Option (Except StateErrorSt State)
  | 0, state =>
    match state.address with
    | none => some (.ok state)
    | some _ => none
  | n + 1, state =>
    match state.address with
    | none => some (.ok state)
    | some address =>
      match resolve_address env address store_dir with
      | .error e => some (.error e)
      | .ok st =>
        match converge_state env fuelI st with
        | none => none
        | some (.error e) => some (.error e)
        | some (.ok st2) => converge_address_loop env store_dir fuelI n st2

/-- `converge_address`: resolve and converge once, then follow pending
addresses until none is left. -/
def converge_address (env : StEnv) (fuelI fuelO : Nat) (address : Address)
    (store_dir : Path) : Option (Except StateErrorSt State) :=
  match resolve_address env address store_dir with
  | .error e => some (.error e)
  | .ok st =>
    match converge_state env fuelI st with
    | none => none
    | some (.error e) => some (.error e)
    | some (.ok st2) => converge_address_loop env store_dir fuelI fuelO st2

/-- `Address::from_addr_in`: fill in defaults (url from the inferred git
origin or current directory, ref `HEAD`, relative local roots resolved
against the inferred base). -/
def Address.from_addr_in (env : StEnv) (value : AddressIn)
    (infer_ctx : InferContext) : Except StateErrorSt Address := do
  match value with
  | .Git g =>
    let url ←
      match g.url with
      | some url => pure url
      | none => do
        let current_dir ← env.currentDir
        match infer_ctx with
        | .git =>
          match env.gitRootOriginUrl current_dir with
          | .ok u => pure u
          | .error m =>
              throw { msg := "Error resolving current Git repository.",
                      source := .git m }
        | .cwd => pure current_dir
    pure { root := .Git { url := url, git_ref := g.git_ref.getD "HEAD",
                          path := RelPath.fromString (g.target_resolve_root.getD "") },
           state_path := RelPath.fromString (g.state_path.getD ""),
           state_root := RelPath.fromString (g.state_root.getD "") }
  | .Local l =>
    let resolve_root := l.resolve_root.getD ""
    let rr ←
      if strStartsWith resolve_root "/" then pure resolve_root
      else do
        let current_dir ← env.currentDir
        let base_dir ←
          match infer_ctx with
          | .cwd => pure current_dir
          | .git =>
            match env.gitRootOriginUrl current_dir with
            | .ok u => pure u
            | .error m =>
                throw { msg := "Error resolving current Git repository.",
                        source := .git m }
        pure (RelPath.toUtf8Path (RelPath.fromString resolve_root) base_dir)
    pure { root := .Local rr,
           state_path := RelPath.fromString (l.state_path.getD ""),
           state_root := RelPath.fromString (l.state_root.getD "") }

/-- `ResolveState`, the converged result handed to argument resolution. -/
structure ResolveState where
  state_root : Path
  state_path : RelPath
  resolve_root : Path
  name : String
  sub : String
  hash : String
  deriving DecidableEq, Repr

/-- `Utf8Path::file_name`: the last real path segment (trailing `.` and
empty segments skipped; `..` has no file name). -/
def fileName (p : Path) : Option String :=
  let segs := (strSplitChar '/' p).filter (fun s => s ≠ "" ∧ s ≠ ".")
  match segs.getLast? with
  | none => none
  | some l => if l = ".." then none else some l

/-- `StateOptions { store_dir }`. -/
structure StateOptions where
  store_dir : Path
  deriving DecidableEq, Repr

/-- `create_resolve_state`: build the address, converge it, derive the name
from the final path segment of `resolve_root`, and fill `sub` and `hash`
with the constants the source uses (`"tidploy_root"`, `"todo_hash"`). -/
def create_resolve_state (env : StEnv) (fuelI fuelO : Nat)
    (addr_in : AddressIn) (infer_ctx : InferContext) (opt : StateOptions) :
    Option (Except StateErrorSt ResolveState) :=
  match Address.from_addr_in env addr_in infer_ctx with
  | .error e => some (.error e)
  | .ok address =>
    match converge_address env fuelI fuelO address opt.store_dir with
    | none => none
    | some (.error e) => some (.error e)
    | some (.ok state) =>
      match fileName state.resolve_root with
      | none =>
          some (.error
            { msg := "Getting context name from context root path for new state.",
              source := .invalidRoot state.resolve_root })
      | some name =>
          some (.ok
            { state_root := RelPath.toUtf8Path state.state_root state.resolve_root,
              state_path := state.state_path,
              resolve_root := state.resolve_root,
              name := name,
              sub := "tidploy_root",
              hash := "todo_hash" })

end StateC

namespace Res

/-! Embedding of `src/src/next/resolve.rs`. -/

/-- `SecretScopeArguments { name, sub, service, require_hash }`. -/
structure SecretScopeArguments where
  name : Option String
  sub : Option String
  service : Option String
  require_hash : Option Bool
  deriving DecidableEq, Repr

instance : Inhabited SecretScopeArguments := ⟨⟨none, none, none, none⟩⟩

/-- `Mergeable for SecretScopeArguments`: `other`'s present fields win. -/
def SecretScopeArguments.merge (self other : SecretScopeArguments) :
    SecretScopeArguments :=
  { service := other.service.or self.service,
    sub := other.sub.or self.sub,
    name := other.name.or self.name,
    require_hash := other.require_hash.or self.require_hash }

/-- `From<ConfigScope> for SecretScopeArguments`. -/
def SecretScopeArguments.fromScope (value : Cfg.ConfigScope) :
    SecretScopeArguments :=
  { service := value.service, name := value.name, sub := value.sub,
    require_hash := value.require_hash }

/-- `Resolvable<String> for Utf8PathBuf`: interpret the string as a relative
path and resolve it against `resolve_root`. -/
def resolveStr (value : String) (resolve_root : Path) : Path :=
  RelPath.toUtf8Path (RelPath.fromString value) resolve_root

/-- `RunArguments { executable, execution_path, envs, scope_args }`. -/
structure RunArguments where
  executable : Option Path
  execution_path : Option Path
  envs : List Cfg.ConfigVar
  scope_args : SecretScopeArguments
  deriving DecidableEq, Repr

instance : Inhabited RunArguments := ⟨⟨none, none, [], default⟩⟩

/-- `Mergeable for RunArguments`: `other`'s present fields override,
`envs` merge key-wise, scope arguments merge field-wise. -/
def RunArguments.merge (self other : RunArguments) : RunArguments :=
  { executable := other.executable.or self.executable,
    execution_path := other.execution_path.or self.execution_path,
    envs := Cfg.merge_vars self.envs other.envs,
    scope_args := self.scope_args.merge other.scope_args }

/-- `RunArguments::from_config`: config paths are resolved against the
directory the config was loaded from. -/
def RunArguments.from_config (value : Cfg.ArgumentConfig)
    (resolve_root : Path) : RunArguments :=
  { executable := value.executable.map (fun s => resolveStr s resolve_root),
    execution_path := value.execution_path.map (fun s => resolveStr s resolve_root),
    envs := value.envs.getD [],
    scope_args := (value.scope.map SecretScopeArguments.fromScope).getD default }

/-- `SecretScope { service, name, sub, hash }`. -/
structure SecretScope where
  service : String
  name : String
  sub : String
  hash : String
  deriving DecidableEq, Repr

/-- `RunResolved`. -/
structure RunResolved where
  executable : Path
  execution_path : Path
  envs : List Cfg.ConfigVar
  scope : SecretScope
  deriving DecidableEq, Repr

/-- `env_scope_args`: scan the process environment for the
`TIDPLOY_SECRET_*` variables. -/
def env_scope_args (vars : List (String × String)) : SecretScopeArguments :=
  vars.foldl
    (fun scope_args kv =>
      if kv.1 = "TIDPLOY_SECRET_SCOPE_NAME" then { scope_args with name := some kv.2 }
      else if kv.1 = "TIDPLOY_SECRET_SCOPE_SUB" then { scope_args with sub := some kv.2 }
      else if kv.1 = "TIDPLOY_SECRET_SERVICE" then { scope_args with service := some kv.2 }
      else if kv.1 = "TIDPLOY_SECRET_REQUIRE_HASH" then
        { scope_args with require_hash := some (kv.2 ≠ "") }
      else scope_args)
    default

/-- `env_run_args`: scan the process environment for the `TIDPLOY_RUN_*`
variables, resolving paths against `resolve_root`; `envs` cannot be set from
the environment. -/
def env_run_args (vars : List (String × String)) (resolve_root : Path) :
    RunArguments :=
  vars.foldl
    (fun run_arguments kv =>
      if kv.1 = "TIDPLOY_RUN_EXECUTABLE" then
        { run_arguments with executable := some (resolveStr kv.2 resolve_root) }
      else if kv.1 = "TIDPLOY_RUN_EXECUTION_PATH" then
        { run_arguments with execution_path := some (resolveStr kv.2 resolve_root) }
      else run_arguments)
    { executable := none, execution_path := none, envs := [],
      scope_args := env_scope_args vars }

/-- `resolve_scope`: defaults for service/name/sub, and the hash pinning:
the passed hash when `require_hash` is set to true, else the sentinel. -/
def resolve_scope (scope_args : SecretScopeArguments)
    (name sub hash : String) : SecretScope :=
  { service := scope_args.service.getD "tidploy",
    name := scope_args.name.getD name,
    sub := scope_args.sub.getD sub,
    hash := if scope_args.require_hash.getD false then hash
            else "tidploy_default_hash" }

/-- `Mergeable for Option<RunArguments>` (via `merge_option`). -/
def mergeOptRun (a b : Option RunArguments) : Option RunArguments :=
  Cfg.merge_option a b RunArguments.merge

/-- `traverse_args` instantiated at `Option<RunArguments>` (the `U`
`resolve_run` uses): per-directory configs are resolved against their own
directory and merged deepest-wins. -/
def traverse_args_run (env : Cfg.FsEnv) (start_path : Path)
    (final_path : RelPath) :
    Except Cfg.ConfigError (Option RunArguments) := do
  let root_config ← Cfg.load_dploy_config env start_path
  let root_args := root_config.argument.map
    (fun c => RunArguments.from_config c start_path)
  (Cfg.get_component_paths start_path final_path).foldlM
    (fun state path => do
      let c ← Cfg.load_dploy_config env path
      pure (mergeOptRun state (c.argument.map
        (fun a => RunArguments.from_config a path))))
    root_args

/-- `resolve_run`: merge CLI over environment over traversed config
(`config.merge(env.merge(cli))`), then apply the documented defaults
(`execution_path` ← `resolve_root`, `executable` ←
`execution_path/entrypoint.sh`) and resolve the secret scope. -/
def resolve_run (fsEnv : Cfg.FsEnv) (procEnv : List (String × String))
    (resolve_state : StateC.ResolveState) (cli_args : RunArguments) :
    Except StateC.StateErrorSt RunResolved :=
  let run_args_env := env_run_args procEnv resolve_state.resolve_root
  let merged_args := run_args_env.merge cli_args
  match traverse_args_run fsEnv resolve_state.resolve_root resolve_state.state_path with
  | .error e =>
      .error { msg := "Failed to traverse config.", source := .config e }
  | .ok config_args =>
    let final_args := (config_args.getD default).merge merged_args
    let scope := resolve_scope final_args.scope_args resolve_state.name
      resolve_state.sub resolve_state.hash
    let execution_path := final_args.execution_path.getD resolve_state.resolve_root
    .ok { executable :=
            final_args.executable.getD (pathJoin execution_path "entrypoint.sh"),
          execution_path := execution_path,
          envs := final_args.envs,
          scope := scope }

end Res

namespace Secr

/-! Embedding of `src/src/next/secrets.rs` and `src/src/secret_store.rs`
(keyring access). -/

/-- `keyring::Error`, split into the one expected variant (`NoEntry`) and
everything else. -/
inductive KeyringErrorS where
  | noEntry
  | other (msg : String)
  deriving DecidableEq, Repr

/-- The keyring collaborator: `Entry::new` and `Entry::get_password`. -/
structure KeyringEnv where
  entryNew : String → String → Except KeyringErrorS Unit
  getPassword : String → String → Except KeyringErrorS String

/-- `get_keyring_secret` (`src/src/next/secrets.rs`): a missing entry is
success-with-`None`; every other keyring failure propagates. -/
def get_keyring_secret (env : KeyringEnv) (key service : String) :
    Except KeyringErrorS (Option String) :=
  match env.entryNew service key with
  | .error e => .error e
  | .ok _ =>
    match env.getPassword service key with
    | .ok pw => .ok (some pw)
    | .error .noEntry => .ok none
    | .error e => .error e

/-- `get_password` (`src/src/secret_store.rs`): same shape against the fixed
`ti_dploy` service. -/
def get_password (env : KeyringEnv) (key : String) :
    Except KeyringErrorS (Option String) :=
  match env.entryNew "ti_dploy" key with
  | .error e => .error e
  | .ok _ =>
    match env.getPassword "ti_dploy" key with
    | .ok pw => .ok (some pw)
    | .error .noEntry => .ok none
    | .error e => .error e

end Secr

/-! ## Derived definitions used by the theorems -/

/-- The last present value in a list of optional values ("deepest wins"). -/
def lastSome {β : Type} : List (Option β) → Option β
  | [] => none
  | x :: xs => (lastSome xs).or x

/-- The executable set by an optional argument config. -/
def projExec (a : Option Cfg.ArgumentConfig) : Option String :=
  a.bind (fun c => c.executable)

/-- The execution path set by an optional argument config. -/
def projExePath (a : Option Cfg.ArgumentConfig) : Option String :=
  a.bind (fun c => c.execution_path)

/-- The scope section of an optional argument config. -/
def projScope (a : Option Cfg.ArgumentConfig) : Option Cfg.ConfigScope :=
  a.bind (fun c => c.scope)

/-- The scope name set by an optional argument config. -/
def projScopeName (a : Option Cfg.ArgumentConfig) : Option String :=
  (projScope a).bind (fun s => s.name)

/-- The scope sub set by an optional argument config. -/
def projScopeSub (a : Option Cfg.ArgumentConfig) : Option String :=
  (projScope a).bind (fun s => s.sub)

/-- The scope service set by an optional argument config. -/
def projScopeService (a : Option Cfg.ArgumentConfig) : Option String :=
  (projScope a).bind (fun s => s.service)

/-- The `require_hash` flag set by an optional argument config. -/
def projScopeHash (a : Option Cfg.ArgumentConfig) : Option Bool :=
  (projScope a).bind (fun s => s.require_hash)

/-- The env-name an optional argument config binds to a given secret key. -/
def projEnvKey (k : String) (a : Option Cfg.ArgumentConfig) : Option String :=
  (a.bind (fun c => c.envs)).bind (fun l => Cfg.lastLookup l k)

/-- The ordered prefixes of the normalized final path, each resolved against
the start path: the directories the traversal must visit, shallow to deep. -/
def orderedPrefixPaths (start : Path) (final : RelPath) : List Path :=
  (List.range final.normalize.length).map
    (fun i => RelPath.toUtf8Path (final.normalize.take (i + 1)) start)

/-- The distinct shas occurring in a list of `ls-remote` matches, in first
occurrence order. -/
def distinctShas (l : List GitC.ShaRef) : List String :=
  (l.map (fun r => r.sha)).foldl
    (fun acc s => if s ∈ acc then acc else acc ++ [s]) []

/-- C3 counterexample input: three matching lines with only two distinct
shas (an annotated tag, a branch at the same commit, and the peeled tag
target). -/
def c3Refs : List GitC.ShaRef :=
  [{ sha := "a", tag := "refs/tags/v1" },
   { sha := "a", tag := "refs/heads/x" },
   { sha := "b", tag := "refs/tags/v1^\x7b\x7d" }]

/-- A config setting only the executable, for the C6 witness. -/
def c6Cfg (e : String) : Cfg.Config :=
  { argument := some
      { scope := none, executable := some e, execution_path := none,
        envs := none },
    state := none }

/-- C6 witness filesystem: configs at `/r`, `/r/a` and `/r/a/b` set the
executable to three different values. -/
def c6Env : Cfg.FsEnv :=
  { file := fun p =>
      if p = "/r/tidploy.json" then .content "root"
      else if p = "/r/a/tidploy.json" then .content "mid"
      else if p = "/r/a/b/tidploy.json" then .content "deep"
      else .absent,
    parseJson := fun s => .ok (c6Cfg (s ++ ".sh")),
    parseToml := fun _ => .error "unexpected" }

/-- The configs the C6 witness filesystem holds, per directory. -/
def c6CfgF : Path → Cfg.Config := fun p =>
  if p = "/r" then c6Cfg "root.sh"
  else if p = "/r/a" then c6Cfg "mid.sh"
  else if p = "/r/a/b" then c6Cfg "deep.sh"
  else Cfg.Config.default

/-- A state config that only redirects to a local address. -/
def cycConfig (target : String) : StateC.ConfigSt :=
  { argument := none,
    state := some { address := some (.Local target none none),
                    state_path := none, state_root := none } }

/-- C1 failing environment: the config at `/a` redirects to `/b` and the
config at `/b` redirects back to `/a`. -/
def cycEnv : StateC.StEnv :=
  { traverseConfigs := fun root _ =>
      if root = "/a" then .ok (cycConfig "/b")
      else if root = "/b" then .ok (cycConfig "/a")
      else .ok { argument := none, state := none },
    currentDir := .ok "/cwd",
    gitRootOriginUrl := fun _ => .error "no git",
    getDirFromGit := fun _ _ _ _ =>
      .error { msg := "no git", source := .git "no git" } }

/-- The address of `/a` in the C1 cycle. -/
def cycAddrA : StateC.Address :=
  { root := .Local "/a", state_root := [], state_path := [] }

/-- The address of `/b` in the C1 cycle. -/
def cycAddrB : StateC.Address :=
  { root := .Local "/b", state_root := [], state_path := [] }

/-- The state `converge_state` reaches at `/a`: stable paths, but with the
redirect to `/b` still pending. -/
def cycStA : StateC.State :=
  { state_root := [], state_path := [], resolve_root := "/a",
    address := some cycAddrB }

/-- The state `converge_state` reaches at `/b`: stable paths, but with the
redirect to `/a` still pending. -/
def cycStB : StateC.State :=
  { state_root := [], state_path := [], resolve_root := "/b",
    address := some cycAddrA }

/-- C5 witness environment: a filesystem with no configs and no git. -/
def c5Env : StateC.StEnv :=
  { traverseConfigs := fun _ _ => .ok { argument := none, state := none },
    currentDir := .ok "/cwd",
    gitRootOriginUrl := fun _ => .error "no git",
    getDirFromGit := fun _ _ _ _ =>
      .error { msg := "no git", source := .git "no git" } }

/-- C5 witness input: a plain local address. -/
def c5AddrIn : StateC.AddressIn :=
  .Local { resolve_root := some "/repo", state_path := none,
           state_root := none }

/-- The resolve state the C5 witness converges to. -/
def c5Rs : StateC.ResolveState :=
  { state_root := "/repo", state_path := [], resolve_root := "/repo",
    name := "repo", sub := "tidploy_root", hash := "todo_hash" }

/-- The repository cache directory key `get_dir_from_git` computes. -/
def gitTargetDir (env : GitC.GitEnv) (url nm : String) (store : Path) :
    Path :=
  pathJoin store (nm ++ "_" ++ env.hashLastN url 8)

/-- The hash of the sorted target paths in the snapshot cache key. -/
def gitPathsHash (env : GitC.GitEnv) (address : GitC.GitAddress)
    (sp : RelPath) : String :=
  env.hashLastN (String.intercalate "_" [RelPath.toStr (address.path ++ sp)]) 8

/-- The content-addressed snapshot directory `get_dir_from_git` computes
from the url key, short commit id and paths hash. -/
def gitCommitPath (env : GitC.GitEnv) (address : GitC.GitAddress)
    (sp : RelPath) (store : Path) (nm cs : String) : Path :=
  pathJoin
    (pathJoin (pathJoin (pathJoin store "c")
      (nm ++ "_" ++ env.hashLastN address.url 8)) cs)
    (gitPathsHash env address sp)

/-- C2 environment: every cache directory already exists, and `ls-remote`
resolves `main` to a full 40-character sha. -/
def c2Env : GitC.GitEnv :=
  { pathExists := fun _ => true,
    gitRootDir := fun _ => .error (.failed "none"),
    cloneRes := fun _ _ _ => .ok (),
    lsRemoteRaw := fun _ _ =>
      .ok "0123456789abcdef0123456789abcdef01234567 refs/heads/main",
    fetchRes := fun _ => .ok (),
    checkoutRes := fun _ _ => .ok (),
    sparseRes := fun _ _ => .ok (),
    hashLastN := fun _ _ => "h",
    writeMeta := fun _ _ => .ok (),
    copyDir := fun _ _ => .ok (),
    removeDir := fun _ => .ok () }

/-- C2 second-call environment: same collaborators as `c2Env` but a
filesystem holding only the two cache directories. -/
def c2Env2 : GitC.GitEnv :=
  { c2Env with pathExists := fun p =>
      if p = "/store/repo_h" then true
      else if p = "/store/c/repo_h/ef01234567/h" then true
      else false }

/-- C2 address: a remote repository resolved at `main`. -/
def c2Addr : GitC.GitAddress :=
  { url := "https://example.com/org/repo.git", git_ref := "main", path := [],
    is_local := false }

/-- C4 witness resolve state. -/
def c4Rs : StateC.ResolveState :=
  { state_root := "/r", state_path := [], resolve_root := "/r",
    name := "repo", sub := "tidploy_root", hash := "todo_hash" }

/-- C7 witness environment: an empty filesystem with parsers that reject
everything. -/
def c7Env : Cfg.FsEnv :=
  { file := fun _ => .absent,
    parseJson := fun _ => .error "unexpected",
    parseToml := fun _ => .error "unexpected" }

/-- C8 witness environment: the keyring holds no entry at all. -/
def c8Env : Secr.KeyringEnv :=
  { entryNew := fun _ _ => .ok (),
    getPassword := fun _ _ => .error .noEntry }

/-- C10 witness: a concrete environment where `ls-remote` reports only
`refs/remotes` lines, so the short pattern `v1` is returned as the commit
and the call panics. -/
def c10Env : GitC.GitEnv :=
  { pathExists := fun _ => true,
    gitRootDir := fun _ => .error (.failed "none"),
    cloneRes := fun _ _ _ => .ok (),
    lsRemoteRaw := fun _ _ =>
      .ok "0123456789abcdef0123456789abcdef01234567 refs/remotes/origin/main",
    fetchRes := fun _ => .ok (),
    checkoutRes := fun _ _ => .ok (),
    sparseRes := fun _ _ => .ok (),
    hashLastN := fun _ _ => "deadbeef",
    writeMeta := fun _ _ => .ok (),
    copyDir := fun _ _ => .ok (),
    removeDir := fun _ => .ok () }

/-- C10 witness address: a short pattern that matches no refs. -/
def c10Addr : GitC.GitAddress :=
  { url := "https://example.com/org/repo.git", git_ref := "v1", path := [],
    is_local := false }

/-! ## Helper lemmas -/

/-- Two-step induction on lists, matching the recursion of
`parse_cli_vars`. -/
theorem twoStepInduction {α : Type} {P : List α → Prop} (h0 : P [])
    (h1 : ∀ a, P [a]) (h2 : ∀ a b l, P l → P (a :: b :: l)) :
    ∀ l, P l
  | [] => h0
  | [a] => h1 a
  | a :: b :: l => h2 a b l (twoStepInduction h0 h1 h2 l)

/-- `overwrite_option` is right-biased `Option.or`. -/
theorem overwrite_option_eq_or {α : Type} (a b : Option α) :
    Cfg.overwrite_option a b = b.or a := by
  cases b <;> rfl

/-- Replacing the entries of one key rewrites exactly that key's last
value (when the key occurs at all). -/
theorem lastLookup_map_replace (k0 v k : String) (m : List Cfg.ConfigVar) :
    Cfg.lastLookup (m.map (fun c => if c.key = k0 then ⟨k0, v⟩ else c)) k =
      if k = k0 then (if m.any (fun c => c.key = k0) then some v else none)
      else Cfg.lastLookup m k := by
  induction m with
  | nil => by_cases hk : k = k0 <;> simp [Cfg.lastLookup, hk]
  | cons c m ih =>
    by_cases hc : c.key = k0
    · by_cases hk : k = k0
      · simp only [List.map_cons, if_pos hc, Cfg.lastLookup, ih, if_pos hk,
          if_pos hk.symm, List.any_cons]
        have hcond : (decide (c.key = k0) || m.any fun x => decide (x.key = k0))
            = true := by simp [hc]
        rw [if_pos hcond]
        cases hany : m.any (fun x => decide (x.key = k0)) <;> simp [hany]
      · simp only [List.map_cons, if_pos hc, Cfg.lastLookup, ih, if_neg hk]
        rw [if_neg (fun h : k0 = k => hk h.symm),
          if_neg (fun h : c.key = k => hk (h.symm.trans hc)),
          Option.or_none]
    · by_cases hk : k = k0
      · simp only [List.map_cons, if_neg hc, Cfg.lastLookup, ih, if_pos hk,
          List.any_cons]
        rw [if_neg (fun h : c.key = k => hc (h.trans hk)), Option.or_none]
        simp [hc]
      · simp only [List.map_cons, if_neg hc, Cfg.lastLookup, ih, if_neg hk]

/-- Appending one entry makes it the new last value for its key. -/
theorem lastLookup_append_single (m : List Cfg.ConfigVar) (x : Cfg.ConfigVar)
    (k : String) :
    Cfg.lastLookup (m ++ [x]) k =
      (if x.key = k then some x.env_name else none).or (Cfg.lastLookup m k) := by
  induction m with
  | nil => simp [Cfg.lastLookup, Option.or_none]
  | cons c m ih =>
    simp only [List.cons_append, Cfg.lastLookup, List.append_eq, ih,
      Option.or_assoc]

/-- `insertVar` sets the value for its key and leaves every other key's
last value unchanged. -/
theorem lastLookup_insertVar (m : List Cfg.ConfigVar) (k0 v k : String) :
    Cfg.lastLookup (Cfg.insertVar m k0 v) k =
      if k = k0 then some v else Cfg.lastLookup m k := by
  unfold Cfg.insertVar
  by_cases hany : m.any (fun c => c.key = k0)
  · rw [if_pos hany, lastLookup_map_replace]
    by_cases hk : k = k0 <;> simp [hk, hany]
  · rw [if_neg hany, lastLookup_append_single]
    by_cases hk : k = k0
    · subst hk; simp
    · rw [if_neg (fun h : k0 = k => hk h.symm), if_neg hk, Option.none_or]

/-- Folding a list of entries into the map makes each key's value the last
occurrence in the list, falling back to the initial map. -/
theorem lastLookup_foldl_insert (l : List Cfg.ConfigVar)
    (m : List Cfg.ConfigVar) (k : String) :
    Cfg.lastLookup
        (l.foldl (fun acc c => Cfg.insertVar acc c.key c.env_name) m) k
      = (Cfg.lastLookup l k).or (Cfg.lastLookup m k) := by
  induction l generalizing m with
  | nil => simp [Cfg.lastLookup]
  | cons c l ih =>
    rw [List.foldl_cons, ih, lastLookup_insertVar]
    simp only [Cfg.lastLookup, Option.or_assoc]
    by_cases hk : k = c.key
    · rw [if_pos hk, if_pos hk.symm, Option.or_some]
    · rw [if_neg hk, if_neg (fun h : c.key = k => hk h.symm), Option.none_or]

/-- `merge_vars` is a key-wise union where the overwriting list wins. -/
theorem lastLookup_merge_vars (l1 l2 : List Cfg.ConfigVar) (k : String) :
    Cfg.lastLookup (Cfg.merge_vars l1 l2) k
      = (Cfg.lastLookup l2 k).or (Cfg.lastLookup l1 k) := by
  unfold Cfg.merge_vars
  rw [lastLookup_foldl_insert, lastLookup_foldl_insert]
  simp [Cfg.lastLookup, Option.or_none]

/-- The executable of an overwritten config is the replacing one when
present. -/
theorem projExec_overwrite (a b : Option Cfg.ArgumentConfig) :
    projExec (Cfg.overwrite_arg_config a b) = (projExec b).or (projExec a) := by
  rcases a with _ | x <;> rcases b with _ | y <;>
    simp [projExec, Cfg.overwrite_arg_config, Cfg.merge_option,
      Cfg.overwrite_arguments, overwrite_option_eq_or, Option.or_none]

/-- The execution path of an overwritten config is the replacing one when
present. -/
theorem projExePath_overwrite (a b : Option Cfg.ArgumentConfig) :
    projExePath (Cfg.overwrite_arg_config a b)
      = (projExePath b).or (projExePath a) := by
  rcases a with _ | x <;> rcases b with _ | y <;>
    simp [projExePath, Cfg.overwrite_arg_config, Cfg.merge_option,
      Cfg.overwrite_arguments, overwrite_option_eq_or, Option.or_none]

/-- Any scalar scope field that is itself overwritten field-wise lifts to a
right-biased merge across optional argument configs. -/
theorem projScopeField_overwrite {β : Type} (g : Cfg.ConfigScope → Option β)
    (hg : ∀ s r, g (Cfg.overwrite_scope s r) = (g r).or (g s))
    (a b : Option Cfg.ArgumentConfig) :
    (projScope (Cfg.overwrite_arg_config a b)).bind g
      = ((projScope b).bind g).or ((projScope a).bind g) := by
  rcases a with _ | x
  · rcases b with _ | y <;>
      simp [projScope, Cfg.overwrite_arg_config, Cfg.merge_option,
        Option.or_none]
  · rcases b with _ | y
    · simp [projScope, Cfg.overwrite_arg_config, Cfg.merge_option,
        Option.or_none]
    · simp only [projScope, Cfg.overwrite_arg_config, Cfg.merge_option,
        Cfg.overwrite_arguments, Option.some_bind]
      rcases x.scope with _ | sx <;> rcases y.scope with _ | sy <;>
        simp [Cfg.merge_option, hg, Option.or_none]

/-- The env binding of any key in an overwritten config follows the same
right-biased precedence, key-wise. -/
theorem projEnvKey_overwrite (k : String) (a b : Option Cfg.ArgumentConfig) :
    projEnvKey k (Cfg.overwrite_arg_config a b)
      = (projEnvKey k b).or (projEnvKey k a) := by
  rcases a with _ | x
  · rcases b with _ | y <;>
      simp [projEnvKey, Cfg.overwrite_arg_config, Cfg.merge_option,
        Option.or_none]
  · rcases b with _ | y
    · simp [projEnvKey, Cfg.overwrite_arg_config, Cfg.merge_option,
        Option.or_none]
    · simp only [projEnvKey, Cfg.overwrite_arg_config, Cfg.merge_option,
        Cfg.overwrite_arguments, Option.some_bind]
      rcases x.envs with _ | lx <;> rcases y.envs with _ | ly <;>
        simp [Cfg.merge_option, lastLookup_merge_vars, Option.or_none]

/-- Folding `overwrite_arg_config` over a list realizes deepest-wins for
any projection that merges right-biased. -/
theorem proj_foldl_overwrite {β : Type} (f : Option Cfg.ArgumentConfig → Option β)
    (hf : ∀ a b, f (Cfg.overwrite_arg_config a b) = (f b).or (f a)) :
    ∀ (l : List (Option Cfg.ArgumentConfig)) (init : Option Cfg.ArgumentConfig),
      f (l.foldl Cfg.overwrite_arg_config init)
        = (lastSome (l.map f)).or (f init) := by
  intro l
  induction l with
  | nil => intro init; simp [lastSome]
  | cons a l ih =>
    intro init
    rw [List.foldl_cons, List.map_cons]
    simp only [lastSome, Option.or_assoc, ih, hf]

/-- When every per-directory load succeeds, the traversal fold reduces to a
pure fold of the loaded argument configs. -/
theorem traverse_loads_ok (env : Cfg.FsEnv) (cfgf : Path → Cfg.Config) :
    ∀ (ps : List Path) (init : Option Cfg.ArgumentConfig),
      (∀ p ∈ ps, Cfg.load_dploy_config env p = .ok (cfgf p)) →
      (ps.foldlM (fun state path => do
          let c ← Cfg.load_dploy_config env path
          pure (Cfg.overwrite_arg_config state c.argument)) init
        : Except Cfg.ConfigError (Option Cfg.ArgumentConfig))
      = .ok ((ps.map (fun p => (cfgf p).argument)).foldl
          Cfg.overwrite_arg_config init) := by
  intro ps
  induction ps with
  | nil => intro init h; rfl
  | cons p ps ih =>
    intro init h
    have h0 := h p (List.mem_cons_self p ps)
    have hstep : ((p :: ps).foldlM (fun state path => do
          let c ← Cfg.load_dploy_config env path
          pure (Cfg.overwrite_arg_config state c.argument)) init
        : Except Cfg.ConfigError (Option Cfg.ArgumentConfig))
        = (ps.foldlM (fun state path => do
            let c ← Cfg.load_dploy_config env path
            pure (Cfg.overwrite_arg_config state c.argument))
          (Cfg.overwrite_arg_config init (cfgf p).argument)) := by
      rw [List.foldlM_cons, h0]
      rfl
    rw [hstep, ih (Cfg.overwrite_arg_config init (cfgf p).argument)
      (fun q hq => h q (List.mem_cons_of_mem p hq))]
    rw [List.map_cons, List.foldl_cons]

/-- The scan inside `get_component_paths`, generalized over its
accumulator. -/
theorem scan_prefix_paths (start : Path) (l : RelPath) :
    ∀ (acc1 : RelPath) (acc2 : List Path),
      (l.foldl (fun (acc : RelPath × List Path) component =>
          (acc.1 ++ [component],
           acc.2 ++ [RelPath.toUtf8Path (acc.1 ++ [component]) start]))
        (acc1, acc2))
      = (acc1 ++ l,
         acc2 ++ (List.range l.length).map
           (fun i => RelPath.toUtf8Path (acc1 ++ l.take (i + 1)) start)) := by
  induction l with
  | nil => intro acc1 acc2; simp
  | cons c l ih =>
    intro acc1 acc2
    rw [List.foldl_cons, ih]
    refine Prod.ext ?_ ?_
    · simp
    · simp only [List.length_cons, List.range_succ_eq_map, List.map_cons,
        List.map_map, List.take_succ_cons, List.append_assoc,
        List.singleton_append, List.take_zero, List.append_nil]
      simp [Function.comp_def]

/-- C6 part: `get_component_paths` visits exactly the ordered prefixes of
the normalized final path, shallow to deep, resolved against the start. -/
theorem get_component_paths_eq (start : Path) (final : RelPath) :
    Cfg.get_component_paths start final = orderedPrefixPaths start final := by
  unfold Cfg.get_component_paths orderedPrefixPaths
  rw [scan_prefix_paths]
  simp

/-! ## C6: traversal merges ordered prefixes, deepest wins -/

/-- C6.  Config traversal loads the config at the start directory and at
each ordered prefix of the normalized final path, merging so that for every
scalar argument field (executable, execution path, each scope field) the
deepest directory that sets it wins, and env bindings merge key-wise with
the same deepest-wins precedence. -/
theorem c6_traverse_deepest_wins (env : Cfg.FsEnv) (start : Path)
    (final : RelPath) (cfgf : Path → Cfg.Config)
    (h : ∀ p ∈ start :: Cfg.get_component_paths start final,
      Cfg.load_dploy_config env p = .ok (cfgf p)) :
    Cfg.get_component_paths start final = orderedPrefixPaths start final ∧
    ∃ res, Cfg.traverse_arg_configs env start final = .ok res ∧
      projExec res = lastSome
        ((start :: Cfg.get_component_paths start final).map
          (fun p => projExec (cfgf p).argument)) ∧
      projExePath res = lastSome
        ((start :: Cfg.get_component_paths start final).map
          (fun p => projExePath (cfgf p).argument)) ∧
      projScopeName res = lastSome
        ((start :: Cfg.get_component_paths start final).map
          (fun p => projScopeName (cfgf p).argument)) ∧
      projScopeSub res = lastSome
        ((start :: Cfg.get_component_paths start final).map
          (fun p => projScopeSub (cfgf p).argument)) ∧
      projScopeService res = lastSome
        ((start :: Cfg.get_component_paths start final).map
          (fun p => projScopeService (cfgf p).argument)) ∧
      projScopeHash res = lastSome
        ((start :: Cfg.get_component_paths start final).map
          (fun p => projScopeHash (cfgf p).argument)) ∧
      ∀ k, projEnvKey k res = lastSome
        ((start :: Cfg.get_component_paths start final).map
          (fun p => projEnvKey k (cfgf p).argument)) := by
  refine ⟨get_component_paths_eq start final, ?_⟩
  have h0 := h start (List.mem_cons_self start _)
  have hrest : ∀ p ∈ Cfg.get_component_paths start final,
      Cfg.load_dploy_config env p = .ok (cfgf p) :=
    fun p hp => h p (List.mem_cons_of_mem start hp)
  have htrav : Cfg.traverse_arg_configs env start final = .ok
      (((Cfg.get_component_paths start final).map
        (fun p => (cfgf p).argument)).foldl Cfg.overwrite_arg_config
        (cfgf start).argument) := by
    unfold Cfg.traverse_arg_configs
    rw [show (Cfg.load_dploy_config env start >>= fun root_config =>
        (Cfg.get_component_paths start final).foldlM
          (fun state path => do
            let c ← Cfg.load_dploy_config env path
            pure (Cfg.overwrite_arg_config state c.argument))
          root_config.argument)
      = ((Cfg.get_component_paths start final).foldlM
          (fun state path => do
            let c ← Cfg.load_dploy_config env path
            pure (Cfg.overwrite_arg_config state c.argument))
          (cfgf start).argument) from by rw [h0]; rfl]
    exact traverse_loads_ok env cfgf _ _ hrest
  refine ⟨_, htrav, ?_, ?_, ?_, ?_, ?_, ?_, ?_⟩
  · rw [proj_foldl_overwrite projExec projExec_overwrite, List.map_cons,
      List.map_map]
    simp [lastSome, Function.comp_def]
  · rw [proj_foldl_overwrite projExePath projExePath_overwrite, List.map_cons,
      List.map_map]
    simp [lastSome, Function.comp_def]
  · rw [proj_foldl_overwrite projScopeName
      (projScopeField_overwrite (fun s => s.name)
        (fun s r => by simp [Cfg.overwrite_scope, overwrite_option_eq_or])),
      List.map_cons, List.map_map]
    simp [lastSome, Function.comp_def, projScopeName]
  · rw [proj_foldl_overwrite projScopeSub
      (projScopeField_overwrite (fun s => s.sub)
        (fun s r => by simp [Cfg.overwrite_scope, overwrite_option_eq_or])),
      List.map_cons, List.map_map]
    simp [lastSome, Function.comp_def, projScopeSub]
  · rw [proj_foldl_overwrite projScopeService
      (projScopeField_overwrite (fun s => s.service)
        (fun s r => by simp [Cfg.overwrite_scope, overwrite_option_eq_or])),
      List.map_cons, List.map_map]
    simp [lastSome, Function.comp_def, projScopeService]
  · rw [proj_foldl_overwrite projScopeHash
      (projScopeField_overwrite (fun s => s.require_hash)
        (fun s r => by simp [Cfg.overwrite_scope, overwrite_option_eq_or])),
      List.map_cons, List.map_map]
    simp [lastSome, Function.comp_def, projScopeHash]
  · intro k
    rw [proj_foldl_overwrite (projEnvKey k) (projEnvKey_overwrite k),
      List.map_cons, List.map_map]
    simp [lastSome, Function.comp_def]

/-- C6 witness: with configs at `/r`, `/r/a`, `/r/a/b` setting three
different executables, traversing to `a/b` yields the deepest one. -/
theorem c6_traverse_deepest_wins_witness :
    ∃ res, Cfg.traverse_arg_configs c6Env "/r" ["a", "b"] = .ok res ∧
      projExec res = some "deep.sh" := by
  obtain ⟨hpaths, res, htrav, hexec, hrest⟩ :=
    c6_traverse_deepest_wins c6Env "/r" ["a", "b"] c6CfgF (by
      intro p hp
      rw [show Cfg.get_component_paths "/r" ["a", "b"]
        = ["/r/a", "/r/a/b"] from rfl] at hp
      simp only [List.mem_cons, List.not_mem_nil, or_false] at hp
      rcases hp with rfl | rfl | rfl <;> rfl)
  refine ⟨res, htrav, ?_⟩
  rw [hexec]
  decide

/-- The env-scan of `env_run_args` never touches the `envs` list or the
scope arguments of its accumulator. -/
theorem env_run_args_envs_scope (vars : List (String × String)) (root : Path) :
    (Res.env_run_args vars root).envs = [] ∧
    (Res.env_run_args vars root).scope_args = Res.env_scope_args vars := by
  unfold Res.env_run_args
  have step : ∀ (init : Res.RunArguments),
      ((vars.foldl (fun run_arguments kv =>
        if kv.1 = "TIDPLOY_RUN_EXECUTABLE" then
          { run_arguments with
            executable := some (Res.resolveStr kv.2 root) }
        else if kv.1 = "TIDPLOY_RUN_EXECUTION_PATH" then
          { run_arguments with
            execution_path := some (Res.resolveStr kv.2 root) }
        else run_arguments) init).envs = init.envs ∧
      (vars.foldl (fun run_arguments kv =>
        if kv.1 = "TIDPLOY_RUN_EXECUTABLE" then
          { run_arguments with
            executable := some (Res.resolveStr kv.2 root) }
        else if kv.1 = "TIDPLOY_RUN_EXECUTION_PATH" then
          { run_arguments with
            execution_path := some (Res.resolveStr kv.2 root) }
        else run_arguments) init).scope_args = init.scope_args) := by
    induction vars with
    | nil => intro init; exact ⟨rfl, rfl⟩
    | cons kv vars ih =>
      intro init
      rw [List.foldl_cons]
      refine ⟨((ih _).1).trans ?_, ((ih _).2).trans ?_⟩ <;>
        by_cases h1 : kv.1 = "TIDPLOY_RUN_EXECUTABLE" <;>
        by_cases h2 : kv.1 = "TIDPLOY_RUN_EXECUTION_PATH" <;>
        simp [h1, h2]
  exact step _

/-! ## C4: CLI > ENV > CONFIG merge precedence in `resolve_run` -/

/-- C4.  Given the traversed config arguments, `resolve_run` resolves every
field as the right-biased chain CLI over environment over config
(`config.merge(env.merge(cli))`), with the documented defaults: the
execution path falls back to `resolve_root`, the executable to
`execution_path/entrypoint.sh`, the scope fields to the resolve state's
name/sub, the service to `tidploy`, and the hash to the pinning rule; env
bindings merge key-wise with CLI winning over config (the environment
cannot contribute env bindings). -/
theorem c4_resolve_run_precedence (fsEnv : Cfg.FsEnv)
    (procEnv : List (String × String)) (rs : StateC.ResolveState)
    (cli : Res.RunArguments) (cfgA : Option Res.RunArguments)
    (hcfg : Res.traverse_args_run fsEnv rs.resolve_root rs.state_path
      = .ok cfgA) :
    ∃ res, Res.resolve_run fsEnv procEnv rs cli = .ok res ∧
      res.execution_path =
        ((cli.execution_path.or
            (Res.env_run_args procEnv rs.resolve_root).execution_path).or
          (cfgA.getD default).execution_path).getD rs.resolve_root ∧
      res.executable =
        ((cli.executable.or
            (Res.env_run_args procEnv rs.resolve_root).executable).or
          (cfgA.getD default).executable).getD
          (pathJoin res.execution_path "entrypoint.sh") ∧
      res.scope.name =
        ((cli.scope_args.name.or (Res.env_scope_args procEnv).name).or
          (cfgA.getD default).scope_args.name).getD rs.name ∧
      res.scope.sub =
        ((cli.scope_args.sub.or (Res.env_scope_args procEnv).sub).or
          (cfgA.getD default).scope_args.sub).getD rs.sub ∧
      res.scope.service =
        ((cli.scope_args.service.or (Res.env_scope_args procEnv).service).or
          (cfgA.getD default).scope_args.service).getD "tidploy" ∧
      res.scope.hash =
        (if ((cli.scope_args.require_hash.or
              (Res.env_scope_args procEnv).require_hash).or
            (cfgA.getD default).scope_args.require_hash).getD false
         then rs.hash else "tidploy_default_hash") ∧
      ∀ k, Cfg.lastLookup res.envs k =
        (Cfg.lastLookup cli.envs k).or
          (Cfg.lastLookup (cfgA.getD default).envs k) := by
  obtain ⟨henvs, hscope⟩ := env_run_args_envs_scope procEnv rs.resolve_root
  unfold Res.resolve_run
  rw [hcfg]
  refine ⟨_, rfl, rfl, rfl, ?_, ?_, ?_, ?_, ?_⟩
  · simp [Res.resolve_scope, Res.RunArguments.merge,
      Res.SecretScopeArguments.merge, hscope]
  · simp [Res.resolve_scope, Res.RunArguments.merge,
      Res.SecretScopeArguments.merge, hscope]
  · simp [Res.resolve_scope, Res.RunArguments.merge,
      Res.SecretScopeArguments.merge, hscope]
  · simp [Res.resolve_scope, Res.RunArguments.merge,
      Res.SecretScopeArguments.merge, hscope]
  · intro k
    simp only [Res.RunArguments.merge, henvs]
    rw [lastLookup_merge_vars, lastLookup_merge_vars]
    simp [Cfg.lastLookup]

/-- C4 witness: with no CLI, environment or config values, everything
defaults: the execution path is the resolve root and the executable is
`entrypoint.sh` inside it. -/
theorem c4_resolve_run_precedence_witness :
    ∃ res, Res.resolve_run c7Env [] c4Rs default = .ok res ∧
      res.execution_path = "/r" ∧ res.executable = "/r/entrypoint.sh" := by
  obtain ⟨res, hres, hep, hex, hrest⟩ :=
    c4_resolve_run_precedence c7Env [] c4Rs default none rfl
  refine ⟨res, hres, ?_, ?_⟩
  · rw [hep]; rfl
  · rw [hex]
    have : res.execution_path = "/r" := by rw [hep]; rfl
    rw [this]
    rfl

/-! ## C9: `parse_cli_vars` pairs consecutive elements -/

/-- C9.  `parse_cli_vars` produces `⌊n/2⌋` entries, the `i`-th pairing
elements `2i` and `2i+1` as key and env name; a final unpaired element of an
odd-length list contributes nothing (the `2i+1` lookup fails), so it is
silently dropped rather than an error. -/
theorem c9_parse_cli_vars_pairs (envs : List String) :
    (StateC.parse_cli_vars envs).length = envs.length / 2 ∧
    ∀ i : Nat, (StateC.parse_cli_vars envs).get? i =
      (envs.get? (2 * i)).bind (fun k => (envs.get? (2 * i + 1)).map
        (fun v => ({ key := k, env_name := v } : Cfg.ConfigVar))) := by
  induction envs using twoStepInduction with
  | h0 =>
    refine ⟨by decide, fun i => ?_⟩
    simp [StateC.parse_cli_vars]
  | h1 a =>
    refine ⟨by simp [StateC.parse_cli_vars], fun i => ?_⟩
    have hL : StateC.parse_cli_vars [a] = [] := rfl
    have h1a : [a].get? (2 * i + 1) = none :=
      List.get?_eq_none.mpr (by simp)
    rw [hL]
    cases hk : [a].get? (2 * i) with
    | none => simp [hk]
    | some k => simp [hk, h1a]
  | h2 a b l ih =>
    refine ⟨?_, ?_⟩
    · have := ih.1
      simp only [StateC.parse_cli_vars, List.length_cons, this]
      omega
    · intro i
      cases i with
      | zero => rfl
      | succ j =>
        have h2j : 2 * (j + 1) = 2 * j + 1 + 1 := by ring
        have h2j1 : 2 * (j + 1) + 1 = 2 * j + 1 + 1 + 1 := by ring
        simp only [StateC.parse_cli_vars, List.get?_cons_succ, h2j, h2j1]
        exact ih.2 j

/-! ## C10: short commit ids make `get_dir_from_git` panic -/

/-- C10.  If the ref resolution of `get_dir_from_git` yields a commit string
shorter than 10 characters (for instance a short pattern returned as-is),
`str_last_n` has nothing to unwrap and the call panics instead of returning
a typed error. -/
theorem c10_short_commit_panics (env : GitC.GitEnv)
    (address : GitC.GitAddress) (sp : RelPath) (store : Path) (nm out c : String)
    (h0 : address.is_local = false)
    (h1 : GitC.parse_url_repo_name address.url = .ok nm)
    (h2 : env.pathExists
      (pathJoin store (nm ++ "_" ++ env.hashLastN address.url 8)) = true)
    (h3 : env.lsRemoteRaw
      (pathJoin store (nm ++ "_" ++ env.hashLastN address.url 8))
      address.git_ref = .ok out)
    (h4 : GitC.ls_remote_process out address.git_ref = .ok c)
    (h5 : c.length < 10) :
    GitC.str_last_n c 10 = none ∧
    (GitC.get_dir_from_git env address sp store).1 = .panic := by
  have hs : GitC.str_last_n c 10 = none := by
    simp only [GitC.str_last_n, if_neg (by omega : ¬ (10 : Nat) = 0), if_pos h5]
  refine ⟨hs, ?_⟩
  simp only [GitC.get_dir_from_git, h0, Bool.false_eq_true, if_false, h1, h2,
    if_true, GitC.resolveAndMaterialize, h3, h4, hs]

/-- C10 witness: the hypotheses of `c10_short_commit_panics` hold at the
concrete input, and the call indeed panics. -/
theorem c10_short_commit_panics_witness :
    GitC.str_last_n "v1" 10 = none ∧
    (GitC.get_dir_from_git c10Env c10Addr [] "/store").1 = .panic :=
  c10_short_commit_panics c10Env c10Addr [] "/store" "repo"
    "0123456789abcdef0123456789abcdef01234567 refs/remotes/origin/main" "v1"
    rfl rfl rfl rfl rfl (by decide)

/-! ## C8: a missing keyring entry is success-with-`None` -/

/-- C8.  For both `get_keyring_secret` and the older `get_password`, a
successful entry construction followed by a `NoEntry` failure — and only
that — is converted to `Ok(None)`; a found password is returned, and every
other keyring failure propagates as an error. -/
theorem c8_keyring_no_entry_is_none (env : Secr.KeyringEnv)
    (key service : String) :
    (Secr.get_keyring_secret env key service = .ok none ↔
      env.entryNew service key = .ok () ∧
        env.getPassword service key = .error .noEntry) ∧
    (∀ pw, env.entryNew service key = .ok () →
      env.getPassword service key = .ok pw →
      Secr.get_keyring_secret env key service = .ok (some pw)) ∧
    (∀ m, env.entryNew service key = .ok () →
      env.getPassword service key = .error (.other m) →
      Secr.get_keyring_secret env key service = .error (.other m)) ∧
    (∀ e, env.entryNew service key = .error e →
      Secr.get_keyring_secret env key service = .error e) ∧
    (Secr.get_password env key = .ok none ↔
      env.entryNew "ti_dploy" key = .ok () ∧
        env.getPassword "ti_dploy" key = .error .noEntry) ∧
    (∀ m, env.entryNew "ti_dploy" key = .ok () →
      env.getPassword "ti_dploy" key = .error (.other m) →
      Secr.get_password env key = .error (.other m)) := by
  refine ⟨?_, ?_, ?_, ?_, ?_, ?_⟩
  · constructor
    · intro h
      unfold Secr.get_keyring_secret at h
      rcases he : env.entryNew service key with e | u
      · rw [he] at h; exact absurd h (by simp)
      · rw [he] at h
        rcases hp : env.getPassword service key with e | pw
        · rw [hp] at h
          cases e with
          | noEntry => exact ⟨rfl, rfl⟩
          | other m => simp at h
        · rw [hp] at h; simp at h
    · rintro ⟨he, hp⟩
      unfold Secr.get_keyring_secret
      rw [he, hp]
  · intro pw he hp
    unfold Secr.get_keyring_secret
    rw [he, hp]
  · intro m he hp
    unfold Secr.get_keyring_secret
    rw [he, hp]
  · intro e he
    unfold Secr.get_keyring_secret
    rw [he]
  · constructor
    · intro h
      unfold Secr.get_password at h
      rcases he : env.entryNew "ti_dploy" key with e | u
      · rw [he] at h; exact absurd h (by simp)
      · rw [he] at h
        rcases hp : env.getPassword "ti_dploy" key with e | pw
        · rw [hp] at h
          cases e with
          | noEntry => exact ⟨rfl, rfl⟩
          | other m => simp at h
        · rw [hp] at h; simp at h
    · rintro ⟨he, hp⟩
      unfold Secr.get_password
      rw [he, hp]
  · intro m he hp
    unfold Secr.get_password
    rw [he, hp]

/-! ## C1: cyclic redirects make `converge_address` loop forever -/

/-- With any positive inner fuel, converging at `/a` or `/b` under the
cyclic environment stops after one merge, leaving the redirect pending. -/
theorem cyc_converge_state (m : Nat) :
    StateC.converge_state cycEnv (m + 1)
      { state_root := [], state_path := [], resolve_root := "/a",
        address := none } = some (.ok cycStA) ∧
    StateC.converge_state cycEnv (m + 1)
      { state_root := [], state_path := [], resolve_root := "/b",
        address := none } = some (.ok cycStB) := by
  constructor <;> rfl

/-- The outer `while let` loop never terminates on the cycle, whatever the
fuels: each hop only flips `/a` to `/b` and back. -/
theorem cyc_loop_diverges (fuelI : Nat) (n : Nat) :
    StateC.converge_address_loop cycEnv "/store" fuelI n cycStA = none ∧
    StateC.converge_address_loop cycEnv "/store" fuelI n cycStB = none := by
  induction n with
  | zero => exact ⟨rfl, rfl⟩
  | succ n ih =>
    constructor
    · cases fuelI with
      | zero => rfl
      | succ m =>
        have hstep : StateC.converge_address_loop cycEnv "/store" (m + 1)
            (n + 1) cycStA
            = StateC.converge_address_loop cycEnv "/store" (m + 1) n cycStB :=
          rfl
        rw [hstep]
        exact ih.2
    · cases fuelI with
      | zero => rfl
      | succ m =>
        have hstep : StateC.converge_address_loop cycEnv "/store" (m + 1)
            (n + 1) cycStB
            = StateC.converge_address_loop cycEnv "/store" (m + 1) n cycStA :=
          rfl
        rw [hstep]
        exact ih.1

/-- C1.  On a config chain whose addresses redirect cyclically
(`/a` redirects to `/b` and `/b` back to `/a`), `converge_address` never
returns: for every inner and outer iteration budget the loop is still
running (`none`), so the source neither terminates within a hop bound nor
produces a "too many redirects" `StateError` — it loops forever. -/
theorem c1_converge_address_cycle_diverges (fuelI fuelO : Nat) :
    StateC.converge_address cycEnv fuelI fuelO cycAddrA "/store" = none := by
  cases fuelI with
  | zero => rfl
  | succ m =>
    have h1 : StateC.converge_address cycEnv (m + 1) fuelO cycAddrA "/store"
        = StateC.converge_address_loop cycEnv "/store" (m + 1) fuelO cycStA :=
      rfl
    rw [h1]
    exact (cyc_loop_diverges (m + 1) fuelO).1

/-! ## C5: the resolved hash is the `todo_hash` placeholder -/

/-- C5.  Every successfully converged `ResolveState` carries the constant
placeholder `"todo_hash"` — never a resolved commit id — so when a scope
sets `require_hash = true`, `resolve_scope` pins the secret to
`"todo_hash"` instead of the commit (and to the
`"tidploy_default_hash"` sentinel otherwise). -/
theorem c5_hash_is_placeholder (env : StateC.StEnv) (fI fO : Nat)
    (addrIn : StateC.AddressIn) (ctx : StateC.InferContext)
    (opt : StateC.StateOptions) (rs : StateC.ResolveState)
    (h : StateC.create_resolve_state env fI fO addrIn ctx opt
      = some (.ok rs)) :
    rs.hash = "todo_hash" ∧
    (∀ (sa : Res.SecretScopeArguments) (nm sb : String),
      sa.require_hash = some true →
      (Res.resolve_scope sa nm sb rs.hash).hash = "todo_hash") ∧
    (∀ (sa : Res.SecretScopeArguments) (nm sb : String),
      (sa.require_hash = none ∨ sa.require_hash = some false) →
      (Res.resolve_scope sa nm sb rs.hash).hash = "tidploy_default_hash") := by
  have hh : rs.hash = "todo_hash" := by
    unfold StateC.create_resolve_state at h
    split at h
    · exact absurd h (by simp)
    · split at h
      · exact absurd h (by simp)
      · exact absurd h (by simp)
      · split at h
        · exact absurd h (by simp)
        · simp only [Option.some.injEq, Except.ok.injEq] at h
          rw [← h]
  refine ⟨hh, ?_, ?_⟩
  · intro sa nm sb hreq
    simp [Res.resolve_scope, hreq, hh]
  · intro sa nm sb hreq
    rcases hreq with hreq | hreq <;> simp [Res.resolve_scope, hreq]

/-- C5 witness: the concrete local resolution converges to `c5Rs`, whose
hash is the placeholder, and a `require_hash = true` scope is pinned to
that placeholder. -/
theorem c5_hash_is_placeholder_witness :
    c5Rs.hash = "todo_hash" ∧
    (Res.resolve_scope
      { name := none, sub := none, service := none, require_hash := some true }
      "n" "s" c5Rs.hash).hash = "todo_hash" := by
  have h := c5_hash_is_placeholder c5Env 1 1 c5AddrIn .cwd
    { store_dir := "/store" } c5Rs rfl
  exact ⟨h.1, h.2.1
    { name := none, sub := none, service := none, require_hash := some true }
    "n" "s" rfl⟩

/-! ## C2: cache hits skip clone/fetch/checkout but still run ls-remote -/

/-- Full evaluation of `get_dir_from_git` on a cache hit: when the repo
cache directory and the snapshot directory both exist, the only git
operation run is the `ls-remote` ref resolution, and the returned state
points into the existing snapshot. -/
theorem get_dir_cache_hit_eval (env : GitC.GitEnv) (address : GitC.GitAddress)
    (sp : RelPath) (store : Path) (nm out c cs : String)
    (h0 : address.is_local = false)
    (h1 : GitC.parse_url_repo_name address.url = .ok nm)
    (h2 : env.pathExists (gitTargetDir env address.url nm store) = true)
    (h3 : env.lsRemoteRaw (gitTargetDir env address.url nm store)
      address.git_ref = .ok out)
    (h4 : GitC.ls_remote_process out address.git_ref = .ok c)
    (h5 : GitC.str_last_n c 10 = some cs)
    (h6 : env.pathExists (gitCommitPath env address sp store nm cs) = true) :
    GitC.get_dir_from_git env address sp store
      = (.ok { name := nm,
               resolve_root := RelPath.toUtf8Path address.path
                 (gitCommitPath env address sp store nm cs),
               step := .config, state_path := sp },
         [GitC.GitOp.lsRemote (gitTargetDir env address.url nm store)
           address.git_ref]) := by
  simp only [gitTargetDir] at h2 h3
  simp only [gitCommitPath, gitPathsHash, gitTargetDir] at h6
  unfold GitC.get_dir_from_git GitC.resolveAndMaterialize
    GitC.materializeSnapshot
  simp only [h0, Bool.false_eq_true, if_false, h1, h2, if_true, h3, h4, h5,
    h6, gitCommitPath, gitPathsHash, gitTargetDir, List.nil_append]

/-- C2 counterexample.  A pure cache hit (both the repository cache
directory and the snapshot directory exist) still performs one git
subprocess/network operation: the `ls-remote` call that resolves the ref
into the cache key.  The cached `resolve_root` is returned unchanged, but
the operation list is not empty as the claim requires. -/
theorem c2_cache_hit_still_calls_git :
    c2Env.pathExists "/store/repo_h" = true ∧
    c2Env.pathExists "/store/c/repo_h/ef01234567/h" = true ∧
    (GitC.get_dir_from_git c2Env c2Addr [] "/store").1
      = .ok { name := "repo", resolve_root := "/store/c/repo_h/ef01234567/h",
              step := .config, state_path := [] } ∧
    (GitC.get_dir_from_git c2Env c2Addr [] "/store").2
      = [GitC.GitOp.lsRemote "/store/repo_h" "main"] := by
  refine ⟨rfl, rfl, ?_, ?_⟩ <;> rfl

/-- C2 (amended).  On a cache hit `get_dir_from_git` performs no clone,
fetch, checkout or sparse-checkout — its only git operation is the
`ls-remote` ref resolution — and it returns the cached snapshot as
`resolve_root`; the result is moreover independent of the rest of the
filesystem, so a second call with the cache in place returns the same
`resolve_root`. -/
theorem c2_cache_hit_idempotent (env : GitC.GitEnv)
    (address : GitC.GitAddress) (sp : RelPath) (store : Path)
    (nm out c cs : String)
    (h0 : address.is_local = false)
    (h1 : GitC.parse_url_repo_name address.url = .ok nm)
    (h2 : env.pathExists (gitTargetDir env address.url nm store) = true)
    (h3 : env.lsRemoteRaw (gitTargetDir env address.url nm store)
      address.git_ref = .ok out)
    (h4 : GitC.ls_remote_process out address.git_ref = .ok c)
    (h5 : GitC.str_last_n c 10 = some cs)
    (h6 : env.pathExists (gitCommitPath env address sp store nm cs) = true) :
    (GitC.get_dir_from_git env address sp store).2
      = [GitC.GitOp.lsRemote (gitTargetDir env address.url nm store)
          address.git_ref] ∧
    (GitC.get_dir_from_git env address sp store).1
      = .ok { name := nm,
              resolve_root := RelPath.toUtf8Path address.path
                (gitCommitPath env address sp store nm cs),
              step := .config, state_path := sp } ∧
    ∀ env2 : GitC.GitEnv, env2.hashLastN = env.hashLastN →
      env2.lsRemoteRaw = env.lsRemoteRaw →
      env2.pathExists (gitTargetDir env address.url nm store) = true →
      env2.pathExists (gitCommitPath env address sp store nm cs) = true →
      (GitC.get_dir_from_git env2 address sp store).1
        = (GitC.get_dir_from_git env address sp store).1 := by
  have hmain := get_dir_cache_hit_eval env address sp store nm out c cs
    h0 h1 h2 h3 h4 h5 h6
  refine ⟨by rw [hmain], by rw [hmain], ?_⟩
  intro env2 hh hl he2 hc2
  have htd : gitTargetDir env2 address.url nm store
      = gitTargetDir env address.url nm store := by
    simp [gitTargetDir, hh]
  have hcp : gitCommitPath env2 address sp store nm cs
      = gitCommitPath env address sp store nm cs := by
    simp [gitCommitPath, gitPathsHash, hh]
  have hmain2 := get_dir_cache_hit_eval env2 address sp store nm out c cs
    h0 h1 (by rw [htd]; exact he2) (by rw [htd, hl]; exact h3) h4 h5
    (by rw [hcp]; exact hc2)
  rw [hmain, hmain2, hcp]

/-- C2 witness: at the concrete cached repository, a call against a
filesystem holding nothing but the two cache directories returns the same
state as the call against the full filesystem. -/
theorem c2_cache_hit_idempotent_witness :
    (GitC.get_dir_from_git c2Env2 c2Addr [] "/store").1
      = (GitC.get_dir_from_git c2Env c2Addr [] "/store").1 :=
  (c2_cache_hit_idempotent c2Env c2Addr [] "/store" "repo"
      "0123456789abcdef0123456789abcdef01234567 refs/heads/main"
      "0123456789abcdef0123456789abcdef01234567" "ef01234567"
      rfl rfl rfl rfl rfl rfl rfl).2.2 c2Env2 rfl rfl rfl rfl

/-! ## C3: the `ls-remote` disambiguation case analysis -/

/-- C3 counterexample.  The claim makes "more than two distinct shas" the
error condition, but on three matching lines with exactly two distinct shas
— a case the claim's analysis does not reach ("two matches" does not apply
either) — the code already fails hard. -/
theorem c3_two_distinct_shas_counterexample :
    distinctShas c3Refs = ["a", "b"] ∧
    GitC.ls_remote_decide c3Refs "v1" =
      .error (.failed
        "Pattern is not specific enough, cannot determine commit for v1") := by
  constructor
  · rfl
  · rfl

/-- C3 (amended).  The case analysis `ls_remote` actually implements on the
matching lines: zero lines ⇒ the pattern itself is the commit; one line ⇒
its sha; two or more lines all carrying one sha ⇒ that sha; exactly two
lines with differing shas ⇒ the sha of the ref ending in `^\x7b\x7d`,
failing when neither does; and any other case — three or more lines whose
shas are not all identical, even with only two distinct shas — is a hard
`GitError::Failed`. -/
theorem c3_ls_remote_case_analysis (sha_refs : List GitC.ShaRef)
    (pattern : String) :
    (sha_refs = [] →
      GitC.ls_remote_decide sha_refs pattern = .ok pattern) ∧
    (∀ s, sha_refs = [s] →
      GitC.ls_remote_decide sha_refs pattern = .ok s.sha) ∧
    (2 ≤ sha_refs.length →
      (∀ r ∈ sha_refs, r.sha = (sha_refs.headD default).sha) →
      GitC.ls_remote_decide sha_refs pattern =
        .ok (sha_refs.headD default).sha) ∧
    (∀ s0 s1, sha_refs = [s0, s1] → s0.sha ≠ s1.sha →
      (strEndsWith s0.tag "^\x7b\x7d" = true →
        GitC.ls_remote_decide sha_refs pattern = .ok s0.sha) ∧
      (strEndsWith s0.tag "^\x7b\x7d" = false →
        strEndsWith s1.tag "^\x7b\x7d" = true →
        GitC.ls_remote_decide sha_refs pattern = .ok s1.sha) ∧
      (strEndsWith s0.tag "^\x7b\x7d" = false →
        strEndsWith s1.tag "^\x7b\x7d" = false →
        GitC.ls_remote_decide sha_refs pattern =
          .error (.failed "Could not choose tag from two options for ls-remote"))) ∧
    (3 ≤ sha_refs.length →
      ¬ (∀ r ∈ sha_refs, r.sha = (sha_refs.headD default).sha) →
      GitC.ls_remote_decide sha_refs pattern =
        .error (.failed
          ("Pattern is not specific enough, cannot determine commit for "
            ++ pattern))) := by
  refine ⟨?_, ?_, ?_, ?_, ?_⟩
  · rintro rfl
    rfl
  · rintro s rfl
    simp [GitC.ls_remote_decide]
  · intro hlen hall
    have hne : sha_refs.isEmpty = false := by
      cases sha_refs with
      | nil => simp at hlen
      | cons a t => rfl
    have hallb : sha_refs.all
        (fun s => s.sha = (sha_refs.headD default).sha) = true := by
      rw [List.all_eq_true]
      intro r hr
      exact decide_eq_true (hall r hr)
    unfold GitC.ls_remote_decide
    rw [hne]
    simp only [Bool.false_eq_true, if_false]
    rw [if_pos ⟨hlen, hallb⟩]
  · rintro s0 s1 rfl hne
    have hcond : ¬ (2 ≤ ([s0, s1] : List GitC.ShaRef).length ∧
        ([s0, s1] : List GitC.ShaRef).all
          (fun s => s.sha = (([s0, s1] : List GitC.ShaRef).headD default).sha)
          = true) := by
      rintro ⟨-, hall⟩
      rw [List.all_eq_true] at hall
      have := hall s1 (by simp)
      simp only [List.headD_cons, decide_eq_true_eq] at this
      exact hne this.symm
    refine ⟨?_, ?_, ?_⟩
    · intro h0
      unfold GitC.ls_remote_decide
      rw [if_neg (by simp), if_neg hcond]
      simp [h0]
    · intro h0 h1
      unfold GitC.ls_remote_decide
      rw [if_neg (by simp), if_neg hcond]
      simp [h0, h1]
    · intro h0 h1
      unfold GitC.ls_remote_decide
      rw [if_neg (by simp), if_neg hcond]
      simp [h0, h1]
  · intro hlen hnall
    have hne : sha_refs.isEmpty = false := by
      cases sha_refs with
      | nil => simp at hlen
      | cons a t => rfl
    have hcond : ¬ (2 ≤ sha_refs.length ∧ sha_refs.all
        (fun s => s.sha = (sha_refs.headD default).sha) = true) := by
      rintro ⟨-, hall⟩
      rw [List.all_eq_true] at hall
      exact hnall (fun r hr => by
        have := hall r hr
        simpa using this)
    unfold GitC.ls_remote_decide
    rw [hne]
    simp only [Bool.false_eq_true, if_false]
    rw [if_neg hcond, if_neg (by omega), if_neg (by omega)]

/-- C3 witness: the spec's own disambiguation example — `refs/tags/v1` and
its peeled `refs/tags/v1^\x7b\x7d` at different commits resolve to the
peeled sha. -/
theorem c3_ls_remote_case_analysis_witness :
    GitC.ls_remote_decide
      [{ sha := "a", tag := "refs/tags/v1" },
       { sha := "b", tag := "refs/tags/v1^\x7b\x7d" }] "v1" = .ok "b" :=
  (((c3_ls_remote_case_analysis
      [{ sha := "a", tag := "refs/tags/v1" },
       { sha := "b", tag := "refs/tags/v1^\x7b\x7d" }] "v1").2.2.2.1
    { sha := "a", tag := "refs/tags/v1" }
    { sha := "b", tag := "refs/tags/v1^\x7b\x7d" }
    rfl (by decide)).2.1 (by decide) (by decide))

/-! ## C7: config loading prefers JSON, tolerates absence, errors on bad
files -/

/-- C7.  `load_dploy_config` reads `tidploy.json` whenever it exists
(regardless of the TOML file), otherwise `tidploy.toml`; when neither
exists it returns the empty default config without error; a file that
exists but fails to read yields an IO `ConfigError`, and one that fails to
parse yields the matching decode `ConfigError`. -/
theorem c7_load_dploy_config_cases (env : Cfg.FsEnv) (dir : Path) :
    (env.file (pathJoin dir "tidploy.json") = .absent →
      env.file (pathJoin dir "tidploy.toml") = .absent →
      Cfg.load_dploy_config env dir = .ok Cfg.Config.default) ∧
    (∀ s c, env.file (pathJoin dir "tidploy.json") = .content s →
      env.parseJson s = .ok c →
      Cfg.load_dploy_config env dir = .ok c) ∧
    (∀ s m, env.file (pathJoin dir "tidploy.json") = .content s →
      env.parseJson s = .error m →
      ∃ e, Cfg.load_dploy_config env dir = .error e ∧
        e.source = .jsonDecode m) ∧
    (∀ s c, env.file (pathJoin dir "tidploy.json") = .absent →
      env.file (pathJoin dir "tidploy.toml") = .content s →
      env.parseToml s = .ok c →
      Cfg.load_dploy_config env dir = .ok c) ∧
    (∀ s m, env.file (pathJoin dir "tidploy.json") = .absent →
      env.file (pathJoin dir "tidploy.toml") = .content s →
      env.parseToml s = .error m →
      ∃ e, Cfg.load_dploy_config env dir = .error e ∧
        e.source = .tomlDecode m) ∧
    (∀ m, env.file (pathJoin dir "tidploy.json") = .readErr m →
      ∃ e, Cfg.load_dploy_config env dir = .error e ∧ e.source = .io m) ∧
    (∀ m, env.file (pathJoin dir "tidploy.json") = .absent →
      env.file (pathJoin dir "tidploy.toml") = .readErr m →
      ∃ e, Cfg.load_dploy_config env dir = .error e ∧ e.source = .io m) := by
  refine ⟨?_, ?_, ?_, ?_, ?_, ?_, ?_⟩
  · intro hj ht
    simp [Cfg.load_dploy_config, Cfg.FsEnv.pathExists, hj, ht]
  · intro s c hj hp
    simp [Cfg.load_dploy_config, Cfg.FsEnv.pathExists, hj, hp]
  · intro s m hj hp
    refine ⟨⟨"Failed to deserialize file " ++ pathJoin dir "tidploy.json" ++ " to JSON",
      .jsonDecode m⟩, ?_, rfl⟩
    simp [Cfg.load_dploy_config, Cfg.FsEnv.pathExists, hj, hp]
  · intro s c hj ht hp
    simp [Cfg.load_dploy_config, Cfg.FsEnv.pathExists, hj, ht, hp]
  · intro s m hj ht hp
    refine ⟨⟨"Failed to deserialize file " ++ pathJoin dir "tidploy.toml" ++ " to JSON",
      .tomlDecode m⟩, ?_, rfl⟩
    simp [Cfg.load_dploy_config, Cfg.FsEnv.pathExists, hj, ht, hp]
  · intro m hj
    refine ⟨⟨"Failed to read config file at " ++ pathJoin dir "tidploy.json",
      .io m⟩, ?_, rfl⟩
    simp [Cfg.load_dploy_config, Cfg.FsEnv.pathExists, hj]
  · intro m hj ht
    refine ⟨⟨"Failed to read config file at " ++ pathJoin dir "tidploy.toml",
      .io m⟩, ?_, rfl⟩
    simp [Cfg.load_dploy_config, Cfg.FsEnv.pathExists, hj, ht]

/-- C7 witness: with no config file at all, loading yields the default
config and no error. -/
theorem c7_load_dploy_config_cases_witness :
    Cfg.load_dploy_config c7Env "/proj" = .ok Cfg.Config.default :=
  (c7_load_dploy_config_cases c7Env "/proj").1 rfl rfl

/-- C8 witness: at the concrete empty-keyring environment the lookup is
success-with-`None`. -/
theorem c8_keyring_no_entry_is_none_witness :
    Secr.get_keyring_secret c8Env "mykey" "tidploy" = .ok none :=
  ((c8_keyring_no_entry_is_none c8Env "mykey" "tidploy").1).mpr ⟨rfl, rfl⟩

end Tidploy
